import Mathlib

/-!
# Read/write set functions of the mnemosyne transactional-memory runtime

Shallow embedding of `usermode/src/mtm/mode/common/rwset.h`:
`mtm_has_read`, `mtm_validate`, `mtm_allocate_rs_entries` and
`mtm_allocate_ws_entries`, followed by the properties established about them.

Conventions of the embedding.

* A pointer to a lock word is the address of that word (a `Nat`); the shared
  lock table is a map from addresses to lock words, and `ATOMIC_LOAD(p)` is
  the application of that map to `p`.
* A pointer to an array of entries is a `Block`: the address it holds, the
  extent in bytes that the allocator granted for it, and the contents of the
  memory behind it viewed as entries (`cells i` is `entries[i]`).
* C `int` fields are `Int`; the one arithmetic operation performed on them
  (`size *= 2`) wraps to 32 bits in two's complement.  The conversion of an
  `int` to `size_t` for the byte count handed to the allocator is modulo 2^64.
* `assert`, `exit`, a normal return, and a store outside the storage a pointer
  refers to are the four constructors of `Outcome`.
* `malloc`, `realloc` and `posix_memalign` belong to the environment: their
  answers are given by a `libc_t`, which may grant or refuse any request.
* Compile-time switches (`DESIGN`, `CM`, `READ_LOCKED_DATA`/`CONFLICT_TRACKING`)
  and the lock-word macros, which live in headers outside this file, are the
  fields of `Config`.
* `PRINT_DEBUG` only formats a message and is omitted.
-/

namespace Mnemosyne

/-! ## Data model -/

/-- A machine word holding an encoded lock. -/
abbrev mtm_word_t := Nat

/-- Modelled from the spec: the enumeration of transaction states, whose
declaration is in a header outside `rwset.h` (section 3: status is one of
IDLE, ACTIVE, COMMITTED, ABORTED). -/
inductive tx_status_t where
  | TX_IDLE
  | TX_ACTIVE
  | TX_COMMITTED
  | TX_ABORTED
deriving DecidableEq

/-- Modelled from the spec: the values of the `DESIGN` switch (section 6:
design is write-through or write-back). -/
inductive design_t where
  | WRITE_THROUGH
  | WRITE_BACK
deriving DecidableEq

/-- Modelled from the spec: the values of the `CM` switch (section 6:
contention policy is priority, backoff or other). -/
inductive cm_t where
  | CM_PRIORITY
  | CM_BACKOFF
  | CM_OTHER
deriving DecidableEq

/-- Build configuration: the compile-time switches tested by `rwset.h` and the
macros and type sizes it uses without defining them. -/
structure Config where
  /-- The `DESIGN` switch. -/
  DESIGN : design_t
  /-- The `CM` switch. -/
  CM : cm_t
  /-- Whether `READ_LOCKED_DATA` or `CONFLICT_TRACKING` is defined. -/
  TRACKING : Bool
  /-- The `ALIGNMENT` constant passed to `posix_memalign`. -/
  ALIGNMENT : Nat
  /-- The macro `LOCK_GET_OWNED`; its result is tested for being non-zero. -/
  LOCK_GET_OWNED : mtm_word_t → mtm_word_t
  /-- The macro `LOCK_GET_ADDR`: owner reference of a locked word. -/
  LOCK_GET_ADDR : mtm_word_t → Nat
  /-- The macro `LOCK_GET_TIMESTAMP`: version of an unlocked word. -/
  LOCK_GET_TIMESTAMP : mtm_word_t → mtm_word_t
  /-- The value of `sizeof(r_entry_t)`. -/
  sizeof_r_entry_t : Nat
  /-- The value of `sizeof(w_entry_t)`. -/
  sizeof_w_entry_t : Nat
  /-- An entry is an object: its size is not zero. -/
  sizeof_r_entry_t_pos : 0 < sizeof_r_entry_t
  /-- An entry is a record of a few words: its size fits 32 bits. -/
  sizeof_r_entry_t_le : sizeof_r_entry_t ≤ 4294967296
  /-- An entry is an object: its size is not zero. -/
  sizeof_w_entry_t_pos : 0 < sizeof_w_entry_t
  /-- An entry is a record of a few words: its size fits 32 bits. -/
  sizeof_w_entry_t_le : sizeof_w_entry_t ≤ 4294967296

/-- Modelled from the spec: a read-set entry (section 3: lock reference and
version observed at read time); `rwset.h` uses the fields `lock` and
`version`. -/
structure r_entry_t where
  version : mtm_word_t
  lock : Nat
deriving DecidableEq

/-- Modelled from the spec: a write-set entry (section 3: address, new value,
byte-modification mask, lock reference, owning-transaction back-reference);
`rwset.h` uses the field `tx`, the address of the owning descriptor. -/
structure w_entry_t where
  addr : Nat
  value : Nat
  mask : Nat
  lock : Nat
  tx : Nat
deriving DecidableEq

/-- What a pointer to an array of entries refers to: the address held by the
pointer (0 is `NULL`), the number of bytes granted for it by the allocator,
and the memory behind it read as entries. -/
structure Block (α : Type) where
  addr : Nat
  bytes : Nat
  cells : Nat → α

/-- The read set: `entries`, `nb_entries`, `size`. -/
structure r_set_t where
  entries : Block r_entry_t
  nb_entries : Int
  size : Int

/-- The write set: `entries`, `nb_entries`, `size`. -/
structure w_set_t where
  entries : Block w_entry_t
  nb_entries : Int
  size : Int

/-- The transaction descriptor as far as `rwset.h` touches it: its own address
(the value of the pointer `tx`), `status`, and the member `w_set` that
`mtm_allocate_ws_entries` accesses as `tx->w_set`. -/
structure mtm_tx_t where
  ptr : Nat
  status : tx_status_t
  w_set : w_set_t

/-- The per-mode data: timestamp bounds and the two sets. -/
structure mode_data_t where
  start : Nat
  end_ : Nat
  r_set : r_set_t
  w_set : w_set_t

/-- How a call ends: it returns a value, an `assert` fails, the process
terminates through `exit`, or the call stores through a pointer outside the
storage the pointer refers to (a `NULL` pointer, or a slot beyond the bytes
granted): the behaviour is then undefined and the call does not return. -/
inductive Outcome (α : Type) where
  | returned (a : α)
  | assert_failed
  | exited (status : Nat)
  | crashed
deriving DecidableEq

/-- The C library as the allocation functions see it: every request is answered
by the environment.  `malloc` and `realloc` answer with an address (0 is
`NULL`); `posix_memalign` answers with its return code and the address it
stores through `memptr`.  `fresh_r` and `fresh_w` are the indeterminate
contents of newly obtained memory. -/
structure libc_t where
  malloc : Nat → Nat
  realloc : Nat → Nat → Nat
  posix_memalign : Nat → Nat → Nat × Nat
  fresh_r : Nat → r_entry_t
  fresh_w : Nat → w_entry_t

/-! ## Machine arithmetic -/

/-- Largest value of a C `int`. -/
def INT_MAX : Int := 2147483647

/-- Smallest value of a C `int`. -/
def INT_MIN : Int := -2147483648

/-- Reduction of a mathematical integer to a 32-bit two's complement `int`. -/
def wrap_int (x : Int) : Int := (x + 2147483648) % 4294967296 - 2147483648

/-- Conversion of an `int` to the 64-bit unsigned `size_t`. -/
def to_size_t (x : Int) : Nat := (x % 18446744073709551616).toNat

/-- The expression `n * sizeof(T)` with `n` an `int`: evaluated in `size_t`. -/
def alloc_bytes (n : Int) (sz : Nat) : Nat := (to_size_t n * sz) % 18446744073709551616

/-! ## `mtm_has_read` -/

/-- The loop `for (i = nb_entries; i > 0; i--, r++)` of `mtm_has_read`: the
first argument is the remaining count `i`, the second the position of `r`
relative to `entries`.  The result is the position of the entry returned, or
`none` for `NULL`. -/
def mtm_has_read_loop (cells : Nat → r_entry_t) (lock : Nat) : Nat → Nat → Option Nat
  | 0, _ => none
  | i + 1, r =>
    if (cells r).lock = lock then some r
    else mtm_has_read_loop cells lock i (r + 1)

/-- Check if stripe has been read previously. -/
def mtm_has_read (tx : mtm_tx_t) (modedata : mode_data_t) (lock : Nat) :
    Outcome (Option Nat) :=
  if tx.status = tx_status_t.TX_ACTIVE then
    Outcome.returned
      (mtm_has_read_loop modedata.r_set.entries.cells lock modedata.r_set.nb_entries.toNat 0)
  else Outcome.assert_failed

/-! ## `mtm_validate` -/

/-- The test guarding `return 0` for a locked word: true when the lock is held
by another transaction.  Under `WRITE_THROUGH` the owner reference is compared
with `tx`; otherwise it is tested for lying outside
`[w_set.entries, w_set.entries + w_set.nb_entries)`, the addition being pointer
arithmetic on `w_entry_t *`. -/
def locked_by_other (cfg : Config) (tx : mtm_tx_t) (modedata : mode_data_t)
    (l : mtm_word_t) : Bool :=
  match cfg.DESIGN with
  | design_t.WRITE_THROUGH => decide (cfg.LOCK_GET_ADDR l ≠ tx.ptr)
  | design_t.WRITE_BACK =>
    !(decide (modedata.w_set.entries.addr ≤ cfg.LOCK_GET_ADDR l) &&
      decide ((cfg.LOCK_GET_ADDR l : Int) <
        (modedata.w_set.entries.addr : Int)
          + modedata.w_set.nb_entries * (cfg.sizeof_w_entry_t : Int)))

/-- The loop of `mtm_validate`; arguments as in `mtm_has_read_loop`, `mem` is
the lock table that `ATOMIC_LOAD` reads. -/
def mtm_validate_loop (cfg : Config) (tx : mtm_tx_t) (modedata : mode_data_t)
    (mem : Nat → mtm_word_t) : Nat → Nat → Int
  | 0, _ => 1
  | i + 1, r =>
    let l := mem (modedata.r_set.entries.cells r).lock
    if cfg.LOCK_GET_OWNED l ≠ 0 then
      if locked_by_other cfg tx modedata l then 0
      else mtm_validate_loop cfg tx modedata mem i (r + 1)
    else
      if cfg.LOCK_GET_TIMESTAMP l ≠ (modedata.r_set.entries.cells r).version then 0
      else mtm_validate_loop cfg tx modedata mem i (r + 1)

/-- Validate read set (check if all read addresses are still valid now). -/
def mtm_validate (cfg : Config) (tx : mtm_tx_t) (modedata : mode_data_t)
    (mem : Nat → mtm_word_t) : Outcome Int :=
  if tx.status = tx_status_t.TX_ACTIVE then
    Outcome.returned
      (mtm_validate_loop cfg tx modedata mem modedata.r_set.nb_entries.toNat 0)
  else Outcome.assert_failed

/-! ## `mtm_allocate_rs_entries` and `mtm_allocate_ws_entries` -/

/-- The block a successful `realloc(old, bytes)` hands back at address `p`:
the contents are those of the old block up to the lesser of the old and new
byte counts, and indeterminate (`fresh`) beyond.  `sz` is the size of one
entry; entry `i` is kept when it lies wholly inside the kept bytes. -/
def realloc_block {α : Type} (old : Block α) (p bytes sz : Nat) (fresh : Nat → α) :
    Block α :=
  { addr := p
    bytes := bytes
    cells := fun i => if (i + 1) * sz ≤ min old.bytes bytes then old.cells i else fresh i }

/-- The block a successful `malloc(bytes)` or `posix_memalign` hands back at
address `p`: indeterminate contents. -/
def malloc_block {α : Type} (p bytes : Nat) (fresh : Nat → α) : Block α :=
  { addr := p, bytes := bytes, cells := fresh }

/-- (Re)allocate read set entries.  `extend` is the C `int` flag. -/
def mtm_allocate_rs_entries (cfg : Config) (libc : libc_t) (_tx : mtm_tx_t)
    (data : mode_data_t) (extend : Int) : Outcome mode_data_t :=
  if extend ≠ 0 then
    let size := wrap_int (data.r_set.size * 2)
    let bytes := alloc_bytes size cfg.sizeof_r_entry_t
    let p := libc.realloc data.r_set.entries.addr bytes
    if p = 0 then Outcome.exited 1
    else
      Outcome.returned
        { data with
          r_set :=
            { data.r_set with
              size := size
              entries :=
                realloc_block data.r_set.entries p bytes cfg.sizeof_r_entry_t libc.fresh_r } }
  else
    let bytes := alloc_bytes data.r_set.size cfg.sizeof_r_entry_t
    let p := libc.malloc bytes
    if p = 0 then Outcome.exited 1
    else
      Outcome.returned
        { data with r_set := { data.r_set with entries := malloc_block p bytes libc.fresh_r } }

/-- The entry `e` after the assignment `e.tx = tx`. -/
def with_tx (e : w_entry_t) (tx : Nat) : w_entry_t := { e with tx := tx }

/-- The assignment `entries[i].tx = tx` through the pointer `entries`.  The
store is defined when `entries` is not `NULL` and slot `i` lies inside the
bytes granted for the block (`0 ≤ i` and `(i + 1) * sizeof(w_entry_t)` within
`bytes`); otherwise there is no block after it (`none`). -/
def store_tx (sz : Nat) (entries : Block w_entry_t) (i : Int) (tx : Nat) :
    Option (Block w_entry_t) :=
  if entries.addr ≠ 0 ∧ 0 ≤ i ∧ (i + 1) * (sz : Int) ≤ (entries.bytes : Int) then
    some
      { entries with
        cells := Function.update entries.cells i.toNat (with_tx (entries.cells i.toNat) tx) }
  else none

/-- The loop `for (i = first; i < size; i++) entries[i].tx = tx;`: the first
argument is the number of iterations left (`size - i`), the second is `i`.
The loop stops without a result at the first store that is not defined. -/
def init_fields_loop (sz : Nat) (tx : Nat) :
    Nat → Int → Block w_entry_t → Option (Block w_entry_t)
  | 0, _, entries => some entries
  | n + 1, i, entries =>
    match store_tx sz entries i tx with
    | some entries' => init_fields_loop sz tx n (i + 1) entries'
    | none => none

/-- The block `#if defined(READ_LOCKED_DATA) || defined(CONFLICT_TRACKING)` at
the end of `mtm_allocate_ws_entries`, applied to `data->w_set`. -/
def init_fields (cfg : Config) (tx : mtm_tx_t) (first : Int) (w : w_set_t) : Option w_set_t :=
  if cfg.TRACKING then
    match init_fields_loop cfg.sizeof_w_entry_t tx.ptr (w.size - first).toNat first w.entries with
    | some entries' => some { w with entries := entries' }
    | none => none
  else some w

/-- The end of `mtm_allocate_ws_entries`: the field initialisation on the write
set `w` that `data->w_set` has become, then the return with the descriptor
`tx_out` and the mode data. -/
def finish_ws (cfg : Config) (tx tx_out : mtm_tx_t) (data : mode_data_t) (first : Int)
    (w : w_set_t) : Outcome (mtm_tx_t × mode_data_t) :=
  match init_fields cfg tx first w with
  | some w' => Outcome.returned (tx_out, { data with w_set := w' })
  | none => Outcome.crashed

/-- (Re)allocate write set entries.  The call may change both `*tx` and
`*data`, so both are returned. -/
def mtm_allocate_ws_entries (cfg : Config) (libc : libc_t) (tx : mtm_tx_t)
    (data : mode_data_t) (extend : Int) : Outcome (mtm_tx_t × mode_data_t) :=
  let first : Int := if extend ≠ 0 then data.w_set.size else 0
  if extend ≠ 0 then
    let size := wrap_int (data.w_set.size * 2)
    let bytes := alloc_bytes size cfg.sizeof_w_entry_t
    let p := libc.realloc data.w_set.entries.addr bytes
    if p = 0 then Outcome.exited 1
    else
      finish_ws cfg tx tx data first
        { data.w_set with
          size := size
          entries :=
            realloc_block data.w_set.entries p bytes cfg.sizeof_w_entry_t libc.fresh_w }
  else
    match cfg.CM with
    | cm_t.CM_PRIORITY =>
      let bytes := alloc_bytes data.w_set.size cfg.sizeof_w_entry_t
      let r := libc.posix_memalign cfg.ALIGNMENT bytes
      if r.1 ≠ 0 then Outcome.exited 1
      else
        finish_ws cfg tx tx data first
          { data.w_set with entries := malloc_block r.2 bytes libc.fresh_w }
    | _ =>
      let bytes := alloc_bytes tx.w_set.size cfg.sizeof_w_entry_t
      let p := libc.malloc bytes
      if p = 0 then Outcome.exited 1
      else
        finish_ws cfg tx
          { tx with w_set := { tx.w_set with entries := malloc_block p bytes libc.fresh_w } }
          data first data.w_set

/-! ## State-passing form of the two queries -/

/-- Everything `mtm_has_read` and `mtm_validate` can reach through their
arguments: the transaction descriptor, the mode data with the read set and
the write set, and the lock table. -/
structure Store where
  tx : mtm_tx_t
  modedata : mode_data_t
  mem : Nat → mtm_word_t

/-- The loop of `mtm_has_read` with the store threaded through its iterations:
each iteration reads `r->lock` from the store it is given and hands the store
on to the next one.  The loop assigns only to its locals `r` and `i`. -/
def mtm_has_read_loop_st (lock : Nat) : Nat → Nat → Store → Option Nat × Store
  | 0, _, s => (none, s)
  | i + 1, r, s =>
    if (s.modedata.r_set.entries.cells r).lock = lock then (some r, s)
    else mtm_has_read_loop_st lock i (r + 1) s

/-- State-passing `mtm_has_read`: result and store after the call. -/
def mtm_has_read_st (s : Store) (lock : Nat) : Outcome (Option Nat × Store) :=
  if s.tx.status = tx_status_t.TX_ACTIVE then
    Outcome.returned (mtm_has_read_loop_st lock s.modedata.r_set.nb_entries.toNat 0 s)
  else Outcome.assert_failed

/-- The loop of `mtm_validate` with the store threaded through its iterations:
`ATOMIC_LOAD(r->lock)` reads the lock table of the store it is given; the loop
assigns only to its locals `r`, `i`, `l` and `w`. -/
def mtm_validate_loop_st (cfg : Config) : Nat → Nat → Store → Int × Store
  | 0, _, s => (1, s)
  | i + 1, r, s =>
    let l := s.mem (s.modedata.r_set.entries.cells r).lock
    if cfg.LOCK_GET_OWNED l ≠ 0 then
      if locked_by_other cfg s.tx s.modedata l then (0, s)
      else mtm_validate_loop_st cfg i (r + 1) s
    else
      if cfg.LOCK_GET_TIMESTAMP l ≠ (s.modedata.r_set.entries.cells r).version then (0, s)
      else mtm_validate_loop_st cfg i (r + 1) s

/-- State-passing `mtm_validate`: result and store after the call. -/
def mtm_validate_st (cfg : Config) (s : Store) : Outcome (Int × Store) :=
  if s.tx.status = tx_status_t.TX_ACTIVE then
    Outcome.returned (mtm_validate_loop_st cfg s.modedata.r_set.nb_entries.toNat 0 s)
  else Outcome.assert_failed

/-- The outcome of the last of `n + 1` successive calls of `f`, each made on
the store left by the previous one. -/
def call_again {α : Type} (f : Store → Outcome (α × Store)) : Nat → Store → Outcome (α × Store)
  | 0, s => f s
  | n + 1, s =>
    match f s with
    | Outcome.returned r => call_again f n r.2
    | Outcome.assert_failed => Outcome.assert_failed
    | Outcome.exited c => Outcome.exited c
    | Outcome.crashed => Outcome.crashed

/-! ## `mtm_validate` with its loads recorded -/

/-- The loop of `mtm_validate`, returning next to its result the addresses
passed to `ATOMIC_LOAD`, in the order of the loads.  Every iteration performs
exactly one load, of `r->lock`, before it tests anything. -/
def mtm_validate_loop_loads (cfg : Config) (tx : mtm_tx_t) (modedata : mode_data_t)
    (mem : Nat → mtm_word_t) : Nat → Nat → Int × List Nat
  | 0, _ => (1, [])
  | i + 1, r =>
    let a := (modedata.r_set.entries.cells r).lock
    let l := mem a
    if cfg.LOCK_GET_OWNED l ≠ 0 then
      if locked_by_other cfg tx modedata l then (0, [a])
      else
        ((mtm_validate_loop_loads cfg tx modedata mem i (r + 1)).1,
          a :: (mtm_validate_loop_loads cfg tx modedata mem i (r + 1)).2)
    else
      if cfg.LOCK_GET_TIMESTAMP l ≠ (modedata.r_set.entries.cells r).version then (0, [a])
      else
        ((mtm_validate_loop_loads cfg tx modedata mem i (r + 1)).1,
          a :: (mtm_validate_loop_loads cfg tx modedata mem i (r + 1)).2)

/-- `mtm_validate` with its loads recorded. -/
def mtm_validate_loads (cfg : Config) (tx : mtm_tx_t) (modedata : mode_data_t)
    (mem : Nat → mtm_word_t) : Outcome (Int × List Nat) :=
  if tx.status = tx_status_t.TX_ACTIVE then
    Outcome.returned
      (mtm_validate_loop_loads cfg tx modedata mem modedata.r_set.nb_entries.toNat 0)
  else Outcome.assert_failed

/-! ## Vocabulary of the specification -/

/-- The owner reference `o` of a locked word designates this transaction: under
write-through it is the transaction's identity, under write-back it lies in
the in-use part of the transaction's own write set. -/
def refers_to_self (cfg : Config) (tx : mtm_tx_t) (modedata : mode_data_t) (o : Nat) : Prop :=
  match cfg.DESIGN with
  | design_t.WRITE_THROUGH => o = tx.ptr
  | design_t.WRITE_BACK =>
    modedata.w_set.entries.addr ≤ o ∧
      (o : Int) < (modedata.w_set.entries.addr : Int)
        + modedata.w_set.nb_entries * (cfg.sizeof_w_entry_t : Int)

/-- A read-set entry validates: its freshly loaded lock word is either owned by
this same transaction, or is unowned with a timestamp equal to the version
recorded in the entry. -/
def entry_validates (cfg : Config) (tx : mtm_tx_t) (modedata : mode_data_t)
    (mem : Nat → mtm_word_t) (e : r_entry_t) : Prop :=
  (cfg.LOCK_GET_OWNED (mem e.lock) ≠ 0 ∧
      refers_to_self cfg tx modedata (cfg.LOCK_GET_ADDR (mem e.lock))) ∨
    (cfg.LOCK_GET_OWNED (mem e.lock) = 0 ∧
      cfg.LOCK_GET_TIMESTAMP (mem e.lock) = e.version)

/-- What a lock word says: unlocked at a version, or locked with an owner
reference. -/
inductive lock_state where
  | unlocked (version : mtm_word_t)
  | locked (owner : Nat)
deriving DecidableEq

/-- Reading of a lock word through the macros of the configuration. -/
def lock_view (cfg : Config) (l : mtm_word_t) : lock_state :=
  if cfg.LOCK_GET_OWNED l ≠ 0 then lock_state.locked (cfg.LOCK_GET_ADDR l)
  else lock_state.unlocked (cfg.LOCK_GET_TIMESTAMP l)

/-- The lock of entry `e` has changed version since it was read: it is unlocked
at a version other than the recorded one. -/
def changed_version (cfg : Config) (mem : Nat → mtm_word_t) (e : r_entry_t) : Prop :=
  ∃ v, lock_view cfg (mem e.lock) = lock_state.unlocked v ∧ v ≠ e.version

/-- The lock of entry `e` has been acquired by another transaction: it is locked
and its owner reference does not designate this transaction. -/
def acquired_by_other (cfg : Config) (tx : mtm_tx_t) (modedata : mode_data_t)
    (mem : Nat → mtm_word_t) (e : r_entry_t) : Prop :=
  ∃ o, lock_view cfg (mem e.lock) = lock_state.locked o ∧ ¬ refers_to_self cfg tx modedata o

/-- Address `a` lies in the storage of write set `w`, the range
`[entries, entries + size)` of `w_entry_t` slots. -/
def in_storage (cfg : Config) (w : w_set_t) (a : Nat) : Prop :=
  w.entries.addr ≤ a ∧
    (a : Int) < (w.entries.addr : Int) + w.size * (cfg.sizeof_w_entry_t : Int)

/-- Address `a` is that of an in-use entry of write set `w`: the slot at some
index below `nb_entries`. -/
def in_use_entry (cfg : Config) (w : w_set_t) (a : Nat) : Prop :=
  ∃ idx : Nat, (idx : Int) < w.nb_entries ∧ a = w.entries.addr + idx * cfg.sizeof_w_entry_t

/-- The write sets of the transactions of a system, by transaction identity,
are well formed: each keeps `nb_entries ≤ size`, and the storage ranges of
distinct transactions are disjoint. -/
structure write_sets_ok (cfg : Config) (wsets : Nat → w_set_t) : Prop where
  count_le_capacity : ∀ t, (wsets t).nb_entries ≤ (wsets t).size
  disjoint : ∀ t u, t ≠ u → ∀ a, ¬ (in_storage cfg (wsets t) a ∧ in_storage cfg (wsets u) a)

/-- The lock table `mem_wt` of a write-through build and the lock table `mem_wb`
of a write-back build describe the same state: the same locks are owned,
unowned locks carry the same version, and where the write-through word of an
owned lock names the owning transaction, the write-back word refers to an
in-use entry of that transaction's write set. -/
structure same_lock_state (cfg_wt cfg_wb : Config) (wsets : Nat → w_set_t)
    (mem_wt mem_wb : Nat → mtm_word_t) : Prop where
  owned_iff : ∀ a, cfg_wt.LOCK_GET_OWNED (mem_wt a) ≠ 0 ↔ cfg_wb.LOCK_GET_OWNED (mem_wb a) ≠ 0
  version_eq : ∀ a, cfg_wt.LOCK_GET_OWNED (mem_wt a) = 0 →
    cfg_wt.LOCK_GET_TIMESTAMP (mem_wt a) = cfg_wb.LOCK_GET_TIMESTAMP (mem_wb a)
  owner_ref : ∀ a, cfg_wt.LOCK_GET_OWNED (mem_wt a) ≠ 0 →
    in_use_entry cfg_wb (wsets (cfg_wt.LOCK_GET_ADDR (mem_wt a)))
      (cfg_wb.LOCK_GET_ADDR (mem_wb a))

/-- The value a call returned, if it returned. -/
def returned_value {α : Type} : Outcome α → Option α
  | Outcome.returned a => some a
  | Outcome.assert_failed => none
  | Outcome.exited _ => none
  | Outcome.crashed => none

/-- No object is larger than `PTRDIFF_MAX`, so an allocator refuses every
request of 2^63 bytes or more: `malloc` and `realloc` answer `NULL`,
`posix_memalign` answers an error code. -/
def allocator_bounded (libc : libc_t) : Prop :=
  (∀ b, 9223372036854775808 ≤ b → libc.malloc b = 0) ∧
    (∀ p b, 9223372036854775808 ≤ b → libc.realloc p b = 0) ∧
    (∀ a b, 9223372036854775808 ≤ b → (libc.posix_memalign a b).1 ≠ 0)

/-- Reallocation of storage `entries` for a set of capacity `size` keeps the
`size` old entries: the old block holds them, and so does the byte count
requested for the doubled (and wrapped) capacity. -/
def storage_kept {α : Type} (entries : Block α) (size : Int) (sz : Nat) : Prop :=
  size * (sz : Int) ≤ (entries.bytes : Int) ∧
    size * (sz : Int) ≤ (alloc_bytes (wrap_int (size * 2)) sz : Int)

/-- The value a call returned, or `d` if it did not return. -/
def returned_or {α : Type} (o : Outcome α) (d : α) : α :=
  match o with
  | Outcome.returned a => a
  | Outcome.assert_failed => d
  | Outcome.exited _ => d
  | Outcome.crashed => d

/-- The first `nb_entries` entries of a read set, in order. -/
def read_entries (r : r_set_t) : List r_entry_t :=
  (List.range r.nb_entries.toNat).map r.entries.cells

/-- The read set extended `n` times in a row by
`mtm_allocate_rs_entries(tx, data, 1)`. -/
def extend_rs_n (cfg : Config) (libc : libc_t) (tx : mtm_tx_t) :
    Nat → mode_data_t → Outcome mode_data_t
  | 0, d => Outcome.returned d
  | n + 1, d =>
    match mtm_allocate_rs_entries cfg libc tx d 1 with
    | Outcome.returned d' => extend_rs_n cfg libc tx n d'
    | Outcome.assert_failed => Outcome.assert_failed
    | Outcome.exited c => Outcome.exited c
    | Outcome.crashed => Outcome.crashed

/-- The write set extended `n` times in a row by
`mtm_allocate_ws_entries(tx, data, 1)`. -/
def extend_ws_n (cfg : Config) (libc : libc_t) :
    Nat → mtm_tx_t → mode_data_t → Outcome (mtm_tx_t × mode_data_t)
  | 0, tx, d => Outcome.returned (tx, d)
  | n + 1, tx, d =>
    match mtm_allocate_ws_entries cfg libc tx d 1 with
    | Outcome.returned r => extend_ws_n cfg libc n r.1 r.2
    | Outcome.assert_failed => Outcome.assert_failed
    | Outcome.exited c => Outcome.exited c
    | Outcome.crashed => Outcome.crashed

/-! ## Concrete instances used to exercise the definitions -/

/-- Modelled from the spec: a lock-word encoding with one owned bit (the least
significant one), the owner reference in the remaining bits of a locked word
and the version in the remaining bits of an unlocked word (section 3), with
16-byte read entries, 40-byte write entries and 64-byte alignment. -/
def spec_config (d : design_t) (cm : cm_t) (tracking : Bool) : Config :=
  { DESIGN := d
    CM := cm
    TRACKING := tracking
    ALIGNMENT := 64
    LOCK_GET_OWNED := fun l => l % 2
    LOCK_GET_ADDR := fun l => l - l % 2
    LOCK_GET_TIMESTAMP := fun l => l / 2
    sizeof_r_entry_t := 16
    sizeof_w_entry_t := 40
    sizeof_r_entry_t_pos := by decide
    sizeof_r_entry_t_le := by decide
    sizeof_w_entry_t_pos := by decide
    sizeof_w_entry_t_le := by decide }

/-- An all-zero write entry. -/
def w_zero : w_entry_t := { addr := 0, value := 0, mask := 0, lock := 0, tx := 0 }

/-- A write set with storage at address `base` for `size` zeroed entries, of
which `nb` are in use. -/
def w_set_at (base : Nat) (nb size : Int) : w_set_t :=
  { entries := { addr := base, bytes := size.toNat * 40, cells := fun _ => w_zero }
    nb_entries := nb
    size := size }

/-- A read set holding the entries of `es` in storage for `size` entries. -/
def r_set_of (es : List r_entry_t) (size : Int) : r_set_t :=
  { entries :=
      { addr := 4096
        bytes := size.toNat * 16
        cells := fun i => es.getD i { version := 0, lock := 0 } }
    nb_entries := es.length
    size := size }

/-- An active transaction at address 8192 with an empty write set at 20480. -/
def tx_demo : mtm_tx_t :=
  { ptr := 8192, status := tx_status_t.TX_ACTIVE, w_set := w_set_at 20480 0 4 }

/-- Mode data with the read entries `es` and `nb` write entries in use at
address 20480. -/
def data_demo (es : List r_entry_t) (nb : Int) : mode_data_t :=
  { start := 0, end_ := 0, r_set := r_set_of es 8, w_set := w_set_at 20480 nb 4 }

/-- Scenario A after the commit of T1: stripe lock 64 is unlocked at version 6,
lock 72 is held with owner reference 8192 (the identity of `tx_demo`), lock 80
is held with owner reference 20520 (the second slot of the write set at
20480), every other lock is unlocked at version 0. -/
def mem_demo : Nat → mtm_word_t := fun a =>
  if a = 64 then 12 else if a = 72 then 8193 else if a = 80 then 20521 else 0

/-- Two reads that are still valid under write-through against `mem_demo`:
stripe 64 recorded at version 6, and stripe 72, which `tx_demo` holds. -/
def data_valid : mode_data_t :=
  data_demo [{ version := 6, lock := 64 }, { version := 0, lock := 72 }] 0

/-- Scenario A as seen by T2: stripe 64 was read at version 5 (preceded by a
read of stripe 96 at version 0, which is unchanged). -/
def data_stale : mode_data_t :=
  data_demo [{ version := 0, lock := 96 }, { version := 5, lock := 64 }] 0

/-- A system of two transactions: `tx_demo` (identity 8192) with two write
entries in use at 20480, and a transaction of identity 12288 with one write
entry in use at 40960; no other identity has a write set. -/
def wsets_demo : Nat → w_set_t := fun t =>
  if t = 8192 then w_set_at 20480 2 4
  else if t = 12288 then w_set_at 40960 1 4
  else w_set_at 0 0 0

/-- Write-through lock table: lock 72 held by 8192, lock 80 held by 12288,
lock 64 unlocked at version 6, the others unlocked at version 0. -/
def mem_wt_demo : Nat → mtm_word_t := fun a =>
  if a = 72 then 8193 else if a = 80 then 12289 else if a = 64 then 12 else 0

/-- Write-back lock table for the same state: lock 72 refers to the second
slot of the write set at 20480, lock 80 to the first slot of the one at
40960. -/
def mem_wb_demo : Nat → mtm_word_t := fun a =>
  if a = 72 then 20521 else if a = 80 then 40961 else if a = 64 then 12 else 0

/-- Reads of stripes 64 (at version 6), 72 and 80, with two write entries in
use. -/
def data_shared : mode_data_t :=
  data_demo
    [{ version := 6, lock := 64 }, { version := 0, lock := 72 }, { version := 0, lock := 80 }] 2

/-- A C library that grants every request: `malloc` answers 65536, `realloc`
131072, `posix_memalign` succeeds with 196608; new memory reads as zeroes. -/
def libc_grant : libc_t :=
  { malloc := fun _ => 65536
    realloc := fun _ _ => 131072
    posix_memalign := fun _ _ => (0, 196608)
    fresh_r := fun _ => { version := 0, lock := 0 }
    fresh_w := fun _ => w_zero }

/-- A C library that grants every request below 2^63 bytes and refuses the
others: `malloc` answers 65536, `realloc` 131072, `posix_memalign` succeeds
with 196608; new memory reads as zeroes. -/
def libc_real : libc_t :=
  { malloc := fun b => if b < 9223372036854775808 then 65536 else 0
    realloc := fun _ b => if b < 9223372036854775808 then 131072 else 0
    posix_memalign := fun _ b => if b < 9223372036854775808 then (0, 196608) else (12, 0)
    fresh_r := fun _ => { version := 0, lock := 0 }
    fresh_w := fun _ => w_zero }

/-- Mode data whose read set and write set both have capacity `size` and
`nb` entries in use; the read entries are those of `es`. -/
def data_sized (es : List r_entry_t) (nb size : Int) : mode_data_t :=
  { start := 0
    end_ := 0
    r_set := { r_set_of es size with nb_entries := nb }
    w_set := w_set_at 20480 nb size }

/-- A write set of capacity `size` whose storage has not been allocated yet
(`entries` is `NULL`). -/
def w_set_unallocated (size : Int) : w_set_t :=
  { entries := { addr := 0, bytes := 0, cells := fun _ => w_zero }
    nb_entries := 0
    size := size }

/-- A transaction before its first allocation; its own `w_set` member is
configured with capacity 2. -/
def tx_unallocated : mtm_tx_t :=
  { ptr := 8192, status := tx_status_t.TX_ACTIVE, w_set := w_set_unallocated 2 }

/-- Mode data before its first allocation: both sets are configured with
capacity 8 and have no storage. -/
def data_unallocated : mode_data_t :=
  { start := 0
    end_ := 0
    r_set :=
      { entries := { addr := 0, bytes := 0, cells := fun _ => { version := 0, lock := 0 } }
        nb_entries := 0
        size := 8 }
    w_set := w_set_unallocated 8 }

/-- Build with conflict tracking, write-back and the priority policy. -/
def cfg_tracking : Config := spec_config design_t.WRITE_BACK cm_t.CM_PRIORITY true

/-- State after the first allocation of a write set of capacity 4 for
`tx_demo`. -/
def ws_first : mtm_tx_t × mode_data_t :=
  returned_or (mtm_allocate_ws_entries cfg_tracking libc_grant tx_demo (data_sized [] 0 4) 0)
    (tx_demo, data_sized [] 0 4)

/-- State after extending the write set of `ws_first`. -/
def ws_second : mtm_tx_t × mode_data_t :=
  returned_or (mtm_allocate_ws_entries cfg_tracking libc_grant tx_demo ws_first.2 1) ws_first

/-- The descriptor of `tx_demo` in each of the states other than ACTIVE. -/
def tx_in (st : tx_status_t) : mtm_tx_t := { tx_demo with status := st }

/-- A C library that refuses every request: `malloc` and `realloc` answer
`NULL`, `posix_memalign` answers `ENOMEM` (12). -/
def libc_refuse : libc_t :=
  { malloc := fun _ => 0
    realloc := fun _ _ => 0
    posix_memalign := fun _ _ => (12, 0)
    fresh_r := fun _ => { version := 0, lock := 0 }
    fresh_w := fun _ => w_zero }

/-- The store of Scenario A: `tx_demo`, the reads of `data_stale`, the lock
table `mem_demo`. -/
def store_demo : Store := { tx := tx_demo, modedata := data_stale, mem := mem_demo }

/-- The reads of `data_stale` followed by a third read, of stripe 80. -/
def data_stale_longer : mode_data_t :=
  data_demo
    [{ version := 0, lock := 96 }, { version := 5, lock := 64 }, { version := 3, lock := 80 }] 0

/-- The lock table `mem_demo` with the words of stripes 72 and 80 changed. -/
def mem_demo_later : Nat → mtm_word_t := fun a =>
  if a = 72 then 0 else if a = 80 then 6 else mem_demo a

/-- Reads of stripes 96 and 80 by a transaction that has written nothing. -/
def data_no_writes : mode_data_t :=
  data_demo [{ version := 0, lock := 96 }, { version := 0, lock := 80 }] 0

/-- Reads of stripes 96 and 80 by a transaction with one write entry in use;
the word of stripe 80 in `mem_demo` refers to the second slot of its storage. -/
def data_one_write : mode_data_t :=
  data_demo [{ version := 0, lock := 96 }, { version := 0, lock := 80 }] 1

/-- Stripe 64 read twice, at versions 5 and 6, after a read of stripe 96. -/
def data_twice : mode_data_t :=
  data_demo
    [{ version := 0, lock := 96 }, { version := 5, lock := 64 }, { version := 6, lock := 64 }] 0

/-- The two reads of `data_valid` in the opposite order. -/
def data_valid_swapped : mode_data_t :=
  data_demo [{ version := 0, lock := 72 }, { version := 6, lock := 64 }] 0

/-- The reads of `data_valid` without the first one. -/
def data_valid_less : mode_data_t := data_demo [{ version := 0, lock := 72 }] 0

/-! # Properties -/

/-! ## Auxiliary lemmas on the loops -/

theorem locked_by_other_iff (cfg : Config) (tx : mtm_tx_t) (modedata : mode_data_t)
    (l : mtm_word_t) :
    locked_by_other cfg tx modedata l = true ↔
      ¬ refers_to_self cfg tx modedata (cfg.LOCK_GET_ADDR l) := by
  unfold locked_by_other refers_to_self
  cases cfg.DESIGN
  · simp
  · simp only [Bool.not_eq_true', Bool.and_eq_false_imp, decide_eq_true_eq, decide_eq_false_iff_not,
      not_and]

theorem validate_loop_zero_or_one (cfg : Config) (tx : mtm_tx_t) (modedata : mode_data_t)
    (mem : Nat → mtm_word_t) (n r : Nat) :
    mtm_validate_loop cfg tx modedata mem n r = 0 ∨
      mtm_validate_loop cfg tx modedata mem n r = 1 := by
  induction n generalizing r with
  | zero => right; rfl
  | succ n ih =>
    simp only [mtm_validate_loop]
    split_ifs
    · left; rfl
    · exact ih (r + 1)
    · left; rfl
    · exact ih (r + 1)

theorem validate_loop_eq_one_iff (cfg : Config) (tx : mtm_tx_t) (modedata : mode_data_t)
    (mem : Nat → mtm_word_t) (n r : Nat) :
    mtm_validate_loop cfg tx modedata mem n r = 1 ↔
      ∀ k, k < n → entry_validates cfg tx modedata mem (modedata.r_set.entries.cells (r + k)) := by
  induction n generalizing r with
  | zero => simp [mtm_validate_loop]
  | succ n ih =>
    have step : (∀ k, k < n + 1 →
          entry_validates cfg tx modedata mem (modedata.r_set.entries.cells (r + k))) ↔
        entry_validates cfg tx modedata mem (modedata.r_set.entries.cells r) ∧
          ∀ k, k < n →
            entry_validates cfg tx modedata mem (modedata.r_set.entries.cells (r + 1 + k)) := by
      constructor
      · intro h
        refine ⟨by simpa using h 0 (Nat.succ_pos n), fun k hk => ?_⟩
        have := h (k + 1) (Nat.succ_lt_succ hk)
        rwa [show r + (k + 1) = r + 1 + k by omega] at this
      · rintro ⟨h0, hs⟩ k hk
        cases k with
        | zero => simpa using h0
        | succ k =>
          have := hs k (Nat.lt_of_succ_lt_succ hk)
          rwa [show r + 1 + k = r + (k + 1) by omega] at this
    rw [step, ← ih (r + 1)]
    simp only [mtm_validate_loop]
    by_cases ho : cfg.LOCK_GET_OWNED (mem (modedata.r_set.entries.cells r).lock) = 0
    · by_cases hv : cfg.LOCK_GET_TIMESTAMP (mem (modedata.r_set.entries.cells r).lock)
          = (modedata.r_set.entries.cells r).version
      · simp [ho, hv, entry_validates]
      · simp [ho, hv, entry_validates]
    · by_cases hl : locked_by_other cfg tx modedata
          (mem (modedata.r_set.entries.cells r).lock) = true
      · have hn := (locked_by_other_iff cfg tx modedata _).1 hl
        simp [ho, hl, hn, entry_validates]
      · have hn : refers_to_self cfg tx modedata
            (cfg.LOCK_GET_ADDR (mem (modedata.r_set.entries.cells r).lock)) := by
          by_contra hc
          exact hl ((locked_by_other_iff cfg tx modedata _).2 hc)
        simp [ho, hl, hn, entry_validates]

theorem lt_toNat_iff (i : Nat) (n : Int) : i < n.toNat ↔ (i : Int) < n := by
  omega

theorem has_read_loop_eq_none_iff (cells : Nat → r_entry_t) (lock n r : Nat) :
    mtm_has_read_loop cells lock n r = none ↔ ∀ k, k < n → (cells (r + k)).lock ≠ lock := by
  induction n generalizing r with
  | zero => simp [mtm_has_read_loop]
  | succ n ih =>
    simp only [mtm_has_read_loop]
    by_cases h : (cells r).lock = lock
    · simp only [h, if_true]
      constructor
      · intro hc; cases hc
      · intro hall; exact absurd (by simpa using h) (hall 0 (Nat.succ_pos n))
    · simp only [h, if_false, ih (r + 1)]
      constructor
      · intro hs k hk
        cases k with
        | zero => simpa using h
        | succ k =>
          have := hs k (Nat.lt_of_succ_lt_succ hk)
          rwa [show r + 1 + k = r + (k + 1) by omega] at this
      · intro hs k hk
        have := hs (k + 1) (Nat.succ_lt_succ hk)
        rwa [show r + (k + 1) = r + 1 + k by omega] at this

theorem has_read_loop_eq_some_iff (cells : Nat → r_entry_t) (lock n r i : Nat) :
    mtm_has_read_loop cells lock n r = some i ↔
      r ≤ i ∧ i < r + n ∧ (cells i).lock = lock ∧
        ∀ j, r ≤ j → j < i → (cells j).lock ≠ lock := by
  induction n generalizing r with
  | zero =>
    simp only [mtm_has_read_loop]
    constructor
    · intro hc; cases hc
    · rintro ⟨h1, h2, _⟩
      omega
  | succ n ih =>
    simp only [mtm_has_read_loop]
    by_cases h : (cells r).lock = lock
    · simp only [h, if_true, Option.some.injEq]
      constructor
      · rintro rfl
        exact ⟨le_refl _, by omega, h, fun j h1 h2 => by omega⟩
      · rintro ⟨h1, _, _, h4⟩
        by_contra hne
        exact h4 r (le_refl _) (by omega) h
    · simp only [h, if_false, ih (r + 1)]
      constructor
      · rintro ⟨h1, h2, h3, h4⟩
        refine ⟨by omega, by omega, h3, fun j hj1 hj2 => ?_⟩
        by_cases hjr : j = r
        · subst hjr; exact h
        · exact h4 j (by omega) hj2
      · rintro ⟨h1, h2, h3, h4⟩
        have hir : i ≠ r := by
          rintro rfl
          exact h h3
        exact ⟨by omega, by omega, h3, fun j hj1 hj2 => h4 j (by omega) hj2⟩

/-! ## Validation -/

/-- C1: for an ACTIVE transaction, `mtm_validate` returns 1 exactly when every
one of the first `nb_entries` read-set entries validates (its reloaded lock
word is owned by this same transaction, or is unowned with the recorded
version), and returns 0 otherwise. -/
theorem mtm_validate_iff_every_entry_validates (cfg : Config) (tx : mtm_tx_t)
    (modedata : mode_data_t) (mem : Nat → mtm_word_t)
    (hactive : tx.status = tx_status_t.TX_ACTIVE) :
    (mtm_validate cfg tx modedata mem = Outcome.returned 1 ↔
        ∀ i : Nat, (i : Int) < modedata.r_set.nb_entries →
          entry_validates cfg tx modedata mem (modedata.r_set.entries.cells i)) ∧
      (¬ (∀ i : Nat, (i : Int) < modedata.r_set.nb_entries →
          entry_validates cfg tx modedata mem (modedata.r_set.entries.cells i)) →
        mtm_validate cfg tx modedata mem = Outcome.returned 0) := by
  have key := validate_loop_eq_one_iff cfg tx modedata mem modedata.r_set.nb_entries.toNat 0
  simp only [Nat.zero_add, lt_toNat_iff] at key
  simp only [mtm_validate, hactive, if_true, Outcome.returned.injEq]
  refine ⟨key, fun hn => ?_⟩
  rcases validate_loop_zero_or_one cfg tx modedata mem modedata.r_set.nb_entries.toNat 0 with h | h
  · exact h
  · exact absurd (key.1 h) hn

/-- C1, exercised: a write-through transaction whose two reads are a stripe
still at its recorded version 6 and a stripe it has locked itself. -/
theorem mtm_validate_iff_every_entry_validates_witness :
    tx_demo.status = tx_status_t.TX_ACTIVE ∧
      ((mtm_validate (spec_config design_t.WRITE_THROUGH cm_t.CM_OTHER false) tx_demo
          data_valid mem_demo
          = Outcome.returned 1 ↔
        ∀ i : Nat,
          (i : Int) <
              data_valid.r_set.nb_entries →
            entry_validates (spec_config design_t.WRITE_THROUGH cm_t.CM_OTHER false) tx_demo
              data_valid mem_demo
              (data_valid.r_set.entries.cells
                i)) ∧
        (¬ (∀ i : Nat,
          (i : Int) <
              data_valid.r_set.nb_entries →
            entry_validates (spec_config design_t.WRITE_THROUGH cm_t.CM_OTHER false) tx_demo
              data_valid mem_demo
              (data_valid.r_set.entries.cells
                i)) →
          mtm_validate (spec_config design_t.WRITE_THROUGH cm_t.CM_OTHER false) tx_demo
            data_valid mem_demo
            = Outcome.returned 0)) :=
  ⟨rfl, mtm_validate_iff_every_entry_validates
    (spec_config design_t.WRITE_THROUGH cm_t.CM_OTHER false) tx_demo
    data_valid mem_demo rfl⟩

theorem not_entry_validates_iff (cfg : Config) (tx : mtm_tx_t) (modedata : mode_data_t)
    (mem : Nat → mtm_word_t) (e : r_entry_t) :
    ¬ entry_validates cfg tx modedata mem e ↔
      changed_version cfg mem e ∨ acquired_by_other cfg tx modedata mem e := by
  unfold entry_validates changed_version acquired_by_other lock_view
  by_cases ho : cfg.LOCK_GET_OWNED (mem e.lock) = 0
  · simp [ho, eq_comm]
  · simp [ho]

/-- C2 (validation soundness): for an ACTIVE transaction, `mtm_validate` returns
0 exactly when at least one of the first `nb_entries` read-set entries has a
lock that has changed version (unlocked at another version than recorded) or
has been acquired by another transaction (locked, owner not this
transaction); in every other case it returns 1. -/
theorem mtm_validate_false_iff_some_lock_changed (cfg : Config) (tx : mtm_tx_t)
    (modedata : mode_data_t) (mem : Nat → mtm_word_t)
    (hactive : tx.status = tx_status_t.TX_ACTIVE) :
    (mtm_validate cfg tx modedata mem = Outcome.returned 0 ↔
        ∃ i : Nat, (i : Int) < modedata.r_set.nb_entries ∧
          (changed_version cfg mem (modedata.r_set.entries.cells i) ∨
            acquired_by_other cfg tx modedata mem (modedata.r_set.entries.cells i))) ∧
      (mtm_validate cfg tx modedata mem = Outcome.returned 0 ∨
        mtm_validate cfg tx modedata mem = Outcome.returned 1) := by
  have key := validate_loop_eq_one_iff cfg tx modedata mem modedata.r_set.nb_entries.toNat 0
  simp only [Nat.zero_add, lt_toNat_iff] at key
  have h01 := validate_loop_zero_or_one cfg tx modedata mem modedata.r_set.nb_entries.toNat 0
  simp only [mtm_validate, hactive, if_true, Outcome.returned.injEq]
  refine ⟨?_, h01⟩
  constructor
  · intro h0
    have hne : ¬ mtm_validate_loop cfg tx modedata mem modedata.r_set.nb_entries.toNat 0 = 1 := by
      rw [h0]; decide
    rw [key] at hne
    push_neg at hne
    obtain ⟨i, hi, hbad⟩ := hne
    exact ⟨i, hi, (not_entry_validates_iff cfg tx modedata mem _).1 hbad⟩
  · rintro ⟨i, hi, hbad⟩
    rcases h01 with h | h
    · exact h
    · exact absurd (key.1 h i hi) ((not_entry_validates_iff cfg tx modedata mem _).2 hbad)

/-- C2, exercised on Scenario A: the second read of `data_stale` is of a stripe
now at version 6 instead of 5. -/
theorem mtm_validate_false_iff_some_lock_changed_witness :
    tx_demo.status = tx_status_t.TX_ACTIVE ∧
      ((mtm_validate (spec_config design_t.WRITE_BACK cm_t.CM_OTHER false) tx_demo data_stale
            mem_demo = Outcome.returned 0 ↔
          ∃ i : Nat, (i : Int) < data_stale.r_set.nb_entries ∧
            (changed_version (spec_config design_t.WRITE_BACK cm_t.CM_OTHER false) mem_demo
                (data_stale.r_set.entries.cells i) ∨
              acquired_by_other (spec_config design_t.WRITE_BACK cm_t.CM_OTHER false) tx_demo
                data_stale mem_demo (data_stale.r_set.entries.cells i))) ∧
        (mtm_validate (spec_config design_t.WRITE_BACK cm_t.CM_OTHER false) tx_demo data_stale
            mem_demo = Outcome.returned 0 ∨
          mtm_validate (spec_config design_t.WRITE_BACK cm_t.CM_OTHER false) tx_demo data_stale
            mem_demo = Outcome.returned 1)) :=
  ⟨rfl, mtm_validate_false_iff_some_lock_changed
    (spec_config design_t.WRITE_BACK cm_t.CM_OTHER false) tx_demo data_stale mem_demo rfl⟩

/-! ## Read-set lookup -/

/-- C3: for an ACTIVE transaction, `mtm_has_read` returns a result; it returns
the entry at position `i` exactly when `i` is the least index below
`nb_entries` whose lock reference is the queried lock (so any recorded lock
is found), and it returns `NULL` exactly when no entry below `nb_entries` has
that lock reference. -/
theorem mtm_has_read_first_match (tx : mtm_tx_t) (modedata : mode_data_t) (lock : Nat)
    (hactive : tx.status = tx_status_t.TX_ACTIVE) :
    (∀ i : Nat, mtm_has_read tx modedata lock = Outcome.returned (some i) ↔
        ((i : Int) < modedata.r_set.nb_entries ∧
          (modedata.r_set.entries.cells i).lock = lock ∧
          ∀ j : Nat, j < i → (modedata.r_set.entries.cells j).lock ≠ lock)) ∧
      (mtm_has_read tx modedata lock = Outcome.returned none ↔
        ∀ i : Nat, (i : Int) < modedata.r_set.nb_entries →
          (modedata.r_set.entries.cells i).lock ≠ lock) ∧
      ((∃ k : Nat, (k : Int) < modedata.r_set.nb_entries ∧
          (modedata.r_set.entries.cells k).lock = lock) →
        ∃ i : Nat, mtm_has_read tx modedata lock = Outcome.returned (some i) ∧
          (modedata.r_set.entries.cells i).lock = lock) ∧
      (∃ res, mtm_has_read tx modedata lock = Outcome.returned res) := by
  have hsome := has_read_loop_eq_some_iff modedata.r_set.entries.cells lock
    modedata.r_set.nb_entries.toNat 0
  have hnone := has_read_loop_eq_none_iff modedata.r_set.entries.cells lock
    modedata.r_set.nb_entries.toNat 0
  simp only [Nat.zero_add, lt_toNat_iff, Nat.zero_le, true_and, true_implies] at hsome hnone
  simp only [mtm_has_read, hactive, if_true, Outcome.returned.injEq]
  refine ⟨hsome, hnone, ?_, ⟨_, rfl⟩⟩
  rintro ⟨k, hk, hkl⟩
  cases hres : mtm_has_read_loop modedata.r_set.entries.cells lock
      modedata.r_set.nb_entries.toNat 0 with
  | none => exact absurd hkl (hnone.1 hres k hk)
  | some i => exact ⟨i, rfl, ((hsome i).1 hres).2.1⟩

/-- C3, exercised: in `data_stale` the lock 64 was recorded second. -/
theorem mtm_has_read_first_match_witness :
    tx_demo.status = tx_status_t.TX_ACTIVE ∧
      mtm_has_read tx_demo data_stale 64 = Outcome.returned (some 1) ∧
      mtm_has_read tx_demo data_stale 72 = Outcome.returned none := by
  have h := mtm_has_read_first_match tx_demo data_stale 64 rfl
  have h' := mtm_has_read_first_match tx_demo data_stale 72 rfl
  refine ⟨rfl, (h.1 1).2 ⟨by decide, by decide, ?_⟩, h'.2.1.2 ?_⟩
  · intro j hj
    interval_cases j
    decide
  · intro i hi
    have hi2 : i < 2 := by
      have : (data_stale.r_set.nb_entries : Int) = 2 := by decide
      omega
    interval_cases i <;> decide

/-- C4 (Scenario A, generalised): for an ACTIVE transaction, if some entry
below `nb_entries` was recorded at a version `v` and its lock is now unlocked
at a version different from `v`, `mtm_validate` returns 0. -/
theorem mtm_validate_rejects_stale_version (cfg : Config) (tx : mtm_tx_t)
    (modedata : mode_data_t) (mem : Nat → mtm_word_t) (i : Nat)
    (hactive : tx.status = tx_status_t.TX_ACTIVE)
    (hi : (i : Int) < modedata.r_set.nb_entries)
    (hunlocked : cfg.LOCK_GET_OWNED (mem (modedata.r_set.entries.cells i).lock) = 0)
    (hversion : cfg.LOCK_GET_TIMESTAMP (mem (modedata.r_set.entries.cells i).lock)
      ≠ (modedata.r_set.entries.cells i).version) :
    mtm_validate cfg tx modedata mem = Outcome.returned 0 := by
  have key := validate_loop_eq_one_iff cfg tx modedata mem modedata.r_set.nb_entries.toNat 0
  simp only [Nat.zero_add, lt_toNat_iff] at key
  simp only [mtm_validate, hactive, if_true, Outcome.returned.injEq]
  rcases validate_loop_zero_or_one cfg tx modedata mem modedata.r_set.nb_entries.toNat 0 with h | h
  · exact h
  · exfalso
    have hv := key.1 h i hi
    unfold entry_validates at hv
    rcases hv with ⟨ho, _⟩ | ⟨_, hts⟩
    · exact ho hunlocked
    · exact hversion hts

/-- C4, exercised on Scenario A: T2 read stripe 64 at version 5, T1 has since
released it at version 6, and the validation of T2 returns 0. -/
theorem mtm_validate_rejects_stale_version_witness :
    tx_demo.status = tx_status_t.TX_ACTIVE ∧
      (data_stale.r_set.entries.cells 1).version = 5 ∧
      (spec_config design_t.WRITE_BACK cm_t.CM_OTHER false).LOCK_GET_TIMESTAMP
          (mem_demo (data_stale.r_set.entries.cells 1).lock) = 6 ∧
      mtm_validate (spec_config design_t.WRITE_BACK cm_t.CM_OTHER false) tx_demo data_stale
        mem_demo = Outcome.returned 0 :=
  ⟨rfl, by decide, by decide,
    mtm_validate_rejects_stale_version (spec_config design_t.WRITE_BACK cm_t.CM_OTHER false)
      tx_demo data_stale mem_demo 1 rfl (by decide) (by decide) (by decide)⟩

/-! ## Equivalence of the two ownership tests -/

theorem in_use_entry_in_storage (cfg : Config) (w : w_set_t) (a : Nat)
    (hsz : 0 < cfg.sizeof_w_entry_t) (hle : w.nb_entries ≤ w.size)
    (h : in_use_entry cfg w a) : in_storage cfg w a := by
  obtain ⟨idx, hidx, rfl⟩ := h
  refine ⟨Nat.le_add_right _ _, ?_⟩
  have h1 : ((idx : Int) + 1) * (cfg.sizeof_w_entry_t : Int)
      ≤ w.size * (cfg.sizeof_w_entry_t : Int) :=
    mul_le_mul_of_nonneg_right (by omega) (by omega)
  have h2 : (0 : Int) < (cfg.sizeof_w_entry_t : Int) := by omega
  push_cast
  nlinarith

theorem in_use_entry_iff_refers (cfg : Config) (tx : mtm_tx_t) (modedata : mode_data_t) (a : Nat)
    (hd : cfg.DESIGN = design_t.WRITE_BACK) (hsz : 0 < cfg.sizeof_w_entry_t)
    (h : in_use_entry cfg modedata.w_set a) : refers_to_self cfg tx modedata a := by
  obtain ⟨idx, hidx, rfl⟩ := h
  unfold refers_to_self
  rw [hd]
  refine ⟨Nat.le_add_right _ _, ?_⟩
  have h1 : ((idx : Int) + 1) * (cfg.sizeof_w_entry_t : Int)
      ≤ modedata.w_set.nb_entries * (cfg.sizeof_w_entry_t : Int) :=
    mul_le_mul_of_nonneg_right (by omega) (by omega)
  have h2 : (0 : Int) < (cfg.sizeof_w_entry_t : Int) := by omega
  push_cast
  nlinarith

theorem refers_in_storage (cfg : Config) (tx : mtm_tx_t) (modedata : mode_data_t) (a : Nat)
    (hd : cfg.DESIGN = design_t.WRITE_BACK)
    (hle : modedata.w_set.nb_entries ≤ modedata.w_set.size)
    (h : refers_to_self cfg tx modedata a) : in_storage cfg modedata.w_set a := by
  unfold refers_to_self at h
  rw [hd] at h
  refine ⟨h.1, lt_of_lt_of_le h.2 ?_⟩
  have : modedata.w_set.nb_entries * (cfg.sizeof_w_entry_t : Int)
      ≤ modedata.w_set.size * (cfg.sizeof_w_entry_t : Int) :=
    mul_le_mul_of_nonneg_right hle (by omega)
  omega

theorem ownership_tests_agree (cfg_wt cfg_wb : Config) (tx : mtm_tx_t) (modedata : mode_data_t)
    (wsets : Nat → w_set_t) (mem_wt mem_wb : Nat → mtm_word_t)
    (hwt : cfg_wt.DESIGN = design_t.WRITE_THROUGH) (hwb : cfg_wb.DESIGN = design_t.WRITE_BACK)
    (hsz : 0 < cfg_wb.sizeof_w_entry_t)
    (hself : wsets tx.ptr = modedata.w_set)
    (hok : write_sets_ok cfg_wb wsets)
    (hsame : same_lock_state cfg_wt cfg_wb wsets mem_wt mem_wb)
    (a : Nat) (howned : cfg_wt.LOCK_GET_OWNED (mem_wt a) ≠ 0) :
    locked_by_other cfg_wb tx modedata (mem_wb a)
      = locked_by_other cfg_wt tx modedata (mem_wt a) := by
  have href := hsame.owner_ref a howned
  have hiff : refers_to_self cfg_wb tx modedata (cfg_wb.LOCK_GET_ADDR (mem_wb a)) ↔
      refers_to_self cfg_wt tx modedata (cfg_wt.LOCK_GET_ADDR (mem_wt a)) := by
    by_cases ho : cfg_wt.LOCK_GET_ADDR (mem_wt a) = tx.ptr
    · rw [ho, hself] at href
      have h1 := in_use_entry_iff_refers cfg_wb tx modedata _ hwb hsz href
      have h2 : refers_to_self cfg_wt tx modedata (cfg_wt.LOCK_GET_ADDR (mem_wt a)) := by
        unfold refers_to_self; rw [hwt]; exact ho
      exact ⟨fun _ => h2, fun _ => h1⟩
    · have h2 : ¬ refers_to_self cfg_wt tx modedata (cfg_wt.LOCK_GET_ADDR (mem_wt a)) := by
        unfold refers_to_self; rw [hwt]; exact ho
      have h1 : ¬ refers_to_self cfg_wb tx modedata (cfg_wb.LOCK_GET_ADDR (mem_wb a)) := by
        intro hc
        have hmine := refers_in_storage cfg_wb tx modedata _ hwb
          (by rw [← hself]; exact hok.count_le_capacity tx.ptr) hc
        have htheirs := in_use_entry_in_storage cfg_wb _ _ hsz
          (hok.count_le_capacity (cfg_wt.LOCK_GET_ADDR (mem_wt a))) href
        rw [← hself] at hmine
        exact hok.disjoint _ _ ho _ ⟨htheirs, hmine⟩
      exact ⟨fun h => absurd h h1, fun h => absurd h h2⟩
  have e1 := locked_by_other_iff cfg_wb tx modedata (mem_wb a)
  have e2 := locked_by_other_iff cfg_wt tx modedata (mem_wt a)
  cases h1 : locked_by_other cfg_wb tx modedata (mem_wb a) <;>
    cases h2 : locked_by_other cfg_wt tx modedata (mem_wt a) <;>
    simp_all

theorem validate_loops_agree (cfg_wt cfg_wb : Config) (tx : mtm_tx_t) (modedata : mode_data_t)
    (mem_wt mem_wb : Nat → mtm_word_t)
    (h1 : ∀ a, cfg_wt.LOCK_GET_OWNED (mem_wt a) ≠ 0 ↔ cfg_wb.LOCK_GET_OWNED (mem_wb a) ≠ 0)
    (h2 : ∀ a, cfg_wt.LOCK_GET_OWNED (mem_wt a) = 0 →
      cfg_wt.LOCK_GET_TIMESTAMP (mem_wt a) = cfg_wb.LOCK_GET_TIMESTAMP (mem_wb a))
    (h3 : ∀ a, cfg_wt.LOCK_GET_OWNED (mem_wt a) ≠ 0 →
      locked_by_other cfg_wb tx modedata (mem_wb a)
        = locked_by_other cfg_wt tx modedata (mem_wt a))
    (n r : Nat) :
    mtm_validate_loop cfg_wb tx modedata mem_wb n r
      = mtm_validate_loop cfg_wt tx modedata mem_wt n r := by
  induction n generalizing r with
  | zero => rfl
  | succ n ih =>
    simp only [mtm_validate_loop]
    by_cases ho : cfg_wt.LOCK_GET_OWNED (mem_wt (modedata.r_set.entries.cells r).lock) = 0
    · have ho' : cfg_wb.LOCK_GET_OWNED (mem_wb (modedata.r_set.entries.cells r).lock) = 0 := by
        by_contra hc
        exact (h1 _).2 hc ho
      simp only [ho, ho', ne_eq, not_true_eq_false, if_false, ← h2 _ ho, ih]
    · have ho' : cfg_wb.LOCK_GET_OWNED (mem_wb (modedata.r_set.entries.cells r).lock) ≠ 0 :=
        (h1 _).1 ho
      simp only [ne_eq, ho, ho', not_false_eq_true, if_true, h3 _ ho, ih]

/-- C5: the two ownership tests of `mtm_validate` are equivalent.  In a system
whose write sets keep `nb_entries ≤ size` and have pairwise disjoint storage
ranges, and in which every owned lock word's owner reference points at an
in-use entry of the owning transaction's write set, the write-back
containment test accepts an owned lock exactly when the write-through
identity test does, and the two variants of `mtm_validate` return the same
result. -/
theorem mtm_validate_write_back_eq_write_through (cfg_wt cfg_wb : Config) (tx : mtm_tx_t)
    (modedata : mode_data_t) (wsets : Nat → w_set_t) (mem_wt mem_wb : Nat → mtm_word_t)
    (hwt : cfg_wt.DESIGN = design_t.WRITE_THROUGH) (hwb : cfg_wb.DESIGN = design_t.WRITE_BACK)
    (hsz : 0 < cfg_wb.sizeof_w_entry_t)
    (hself : wsets tx.ptr = modedata.w_set)
    (hok : write_sets_ok cfg_wb wsets)
    (hsame : same_lock_state cfg_wt cfg_wb wsets mem_wt mem_wb) :
    (∀ a, cfg_wt.LOCK_GET_OWNED (mem_wt a) ≠ 0 →
        (locked_by_other cfg_wb tx modedata (mem_wb a) = false ↔
          cfg_wt.LOCK_GET_ADDR (mem_wt a) = tx.ptr)) ∧
      mtm_validate cfg_wb tx modedata mem_wb = mtm_validate cfg_wt tx modedata mem_wt := by
  have hag := ownership_tests_agree cfg_wt cfg_wb tx modedata wsets mem_wt mem_wb hwt hwb hsz
    hself hok hsame
  constructor
  · intro a ha
    rw [hag a ha]
    unfold locked_by_other
    rw [hwt]
    simp
  · unfold mtm_validate
    rw [validate_loops_agree cfg_wt cfg_wb tx modedata mem_wt mem_wb hsame.owned_iff
      hsame.version_eq hag]

theorem wsets_demo_ok :
    write_sets_ok (spec_config design_t.WRITE_BACK cm_t.CM_OTHER false) wsets_demo := by
  constructor
  · intro t
    unfold wsets_demo
    split_ifs <;> decide
  · intro t u htu a
    unfold wsets_demo in_storage
    split_ifs <;> simp [w_set_at, spec_config] <;> omega

theorem mem_demo_same_lock_state :
    same_lock_state (spec_config design_t.WRITE_THROUGH cm_t.CM_OTHER false)
      (spec_config design_t.WRITE_BACK cm_t.CM_OTHER false) wsets_demo mem_wt_demo
      mem_wb_demo := by
  constructor
  · intro a
    unfold mem_wt_demo mem_wb_demo
    split_ifs <;> simp [spec_config]
  · intro a
    unfold mem_wt_demo mem_wb_demo
    split_ifs <;> simp [spec_config]
  · intro a
    unfold mem_wt_demo mem_wb_demo
    split_ifs
    · intro _
      exact ⟨1, by decide, by decide⟩
    · intro _
      exact ⟨0, by decide, by decide⟩
    · intro h
      exact absurd rfl h
    · intro h
      exact absurd rfl h

/-- C5, exercised: `tx_demo` has read stripes 64, 72 and 80; it holds 72 itself
and transaction 12288 holds 80, so both variants reject the read set, and both
ownership tests accept lock 72 and reject lock 80. -/
theorem mtm_validate_write_back_eq_write_through_witness :
    (spec_config design_t.WRITE_THROUGH cm_t.CM_OTHER false).DESIGN = design_t.WRITE_THROUGH ∧
      (spec_config design_t.WRITE_BACK cm_t.CM_OTHER false).DESIGN = design_t.WRITE_BACK ∧
      0 < (spec_config design_t.WRITE_BACK cm_t.CM_OTHER false).sizeof_w_entry_t ∧
      wsets_demo tx_demo.ptr = data_shared.w_set ∧
      write_sets_ok (spec_config design_t.WRITE_BACK cm_t.CM_OTHER false) wsets_demo ∧
      same_lock_state (spec_config design_t.WRITE_THROUGH cm_t.CM_OTHER false)
        (spec_config design_t.WRITE_BACK cm_t.CM_OTHER false) wsets_demo mem_wt_demo
        mem_wb_demo ∧
      locked_by_other (spec_config design_t.WRITE_BACK cm_t.CM_OTHER false) tx_demo data_shared
        (mem_wb_demo 72) = false ∧
      locked_by_other (spec_config design_t.WRITE_BACK cm_t.CM_OTHER false) tx_demo data_shared
        (mem_wb_demo 80) = true ∧
      mtm_validate (spec_config design_t.WRITE_THROUGH cm_t.CM_OTHER false) tx_demo data_shared
        mem_wt_demo = Outcome.returned 0 ∧
      mtm_validate (spec_config design_t.WRITE_BACK cm_t.CM_OTHER false) tx_demo data_shared
        mem_wb_demo = mtm_validate (spec_config design_t.WRITE_THROUGH cm_t.CM_OTHER false)
          tx_demo data_shared mem_wt_demo :=
  ⟨rfl, rfl, by decide, rfl, wsets_demo_ok, mem_demo_same_lock_state, by decide, by decide,
    by decide,
    (mtm_validate_write_back_eq_write_through
      (spec_config design_t.WRITE_THROUGH cm_t.CM_OTHER false)
      (spec_config design_t.WRITE_BACK cm_t.CM_OTHER false) tx_demo data_shared wsets_demo
      mem_wt_demo mem_wb_demo rfl rfl (by decide) rfl wsets_demo_ok mem_demo_same_lock_state).2⟩

/-! ## Allocation -/

theorem int_max_half : INT_MAX / 2 = 1073741823 := by decide

theorem int_min_half : INT_MIN / 2 = -1073741824 := by decide

theorem wrap_int_of_range (x : Int) (h1 : -2147483648 ≤ x) (h2 : x < 2147483648) :
    wrap_int x = x := by
  unfold wrap_int
  omega

theorem alloc_bytes_of_nonneg (n : Int) (sz : Nat) (h0 : 0 ≤ n)
    (h : n * (sz : Int) < 18446744073709551616) :
    (alloc_bytes n sz : Int) = n * (sz : Int) := by
  unfold alloc_bytes to_size_t
  obtain ⟨m, rfl⟩ := Int.eq_ofNat_of_zero_le h0
  have hm : m * sz < 18446744073709551616 := by exact_mod_cast h
  by_cases hsz : sz = 0
  · subst hsz; simp
  · have hm1 : m < 18446744073709551616 := by
      have : m ≤ m * sz := Nat.le_mul_of_pos_right m (Nat.pos_of_ne_zero hsz)
      omega
    have e1 : ((m : Int) % 18446744073709551616).toNat = m := by omega
    rw [e1, Nat.mod_eq_of_lt hm]
    push_cast
    rfl

theorem store_tx_some (sz : Nat) (entries b' : Block w_entry_t) (i : Int) (tx : Nat)
    (h : store_tx sz entries i tx = some b') :
    b'.addr = entries.addr ∧ b'.bytes = entries.bytes ∧
      ∀ k : Nat, b'.cells k
        = if i = (k : Int) then with_tx (entries.cells k) tx else entries.cells k := by
  unfold store_tx at h
  split_ifs at h with hc
  cases h
  refine ⟨rfl, rfl, fun k => ?_⟩
  show Function.update entries.cells i.toNat (with_tx (entries.cells i.toNat) tx) k = _
  by_cases hk : i = (k : Int)
  · subst hk
    simp
  · have : k ≠ i.toNat := by omega
    rw [Function.update_noteq this, if_neg hk]

theorem store_tx_returns (sz : Nat) (entries : Block w_entry_t) (i : Int) (tx : Nat)
    (h : entries.addr ≠ 0 ∧ 0 ≤ i ∧ (i + 1) * (sz : Int) ≤ (entries.bytes : Int)) :
    ∃ b', store_tx sz entries i tx = some b' := by
  unfold store_tx
  rw [if_pos h]
  exact ⟨_, rfl⟩

theorem init_fields_loop_some (sz tx : Nat) (n : Nat) :
    ∀ (i : Int) (entries b' : Block w_entry_t),
      init_fields_loop sz tx n i entries = some b' →
      b'.addr = entries.addr ∧ b'.bytes = entries.bytes ∧
        ∀ k : Nat, b'.cells k
          = if i ≤ (k : Int) ∧ (k : Int) < i + n then with_tx (entries.cells k) tx
            else entries.cells k := by
  induction n with
  | zero =>
    intro i entries b' h
    simp only [init_fields_loop, Option.some.injEq] at h
    subst h
    refine ⟨rfl, rfl, fun k => ?_⟩
    have : ¬ (i ≤ (k : Int) ∧ (k : Int) < i + ((0 : Nat) : Int)) := by omega
    rw [if_neg this]
  | succ n ih =>
    intro i entries b' h
    simp only [init_fields_loop] at h
    cases hs : store_tx sz entries i tx with
    | none => rw [hs] at h; cases h
    | some e1 =>
      rw [hs] at h
      obtain ⟨ha, hb, hc⟩ := store_tx_some sz entries e1 i tx hs
      obtain ⟨ha', hb', hc'⟩ := ih (i + 1) e1 b' h
      refine ⟨by rw [ha', ha], by rw [hb', hb], fun k => ?_⟩
      rw [hc' k, hc k]
      by_cases h1 : i = (k : Int)
      · have h2 : ¬ (i + 1 ≤ (k : Int) ∧ (k : Int) < i + 1 + (n : Int)) := by omega
        have h3 : i ≤ (k : Int) ∧ (k : Int) < i + ((n + 1 : Nat) : Int) := by
          push_cast; omega
        rw [if_neg h2, if_pos h1, if_pos h3]
      · by_cases h2 : i + 1 ≤ (k : Int) ∧ (k : Int) < i + 1 + (n : Int)
        · have h3 : i ≤ (k : Int) ∧ (k : Int) < i + ((n + 1 : Nat) : Int) := by
            push_cast; omega
          rw [if_pos h2, if_neg h1, if_pos h3]
        · have h3 : ¬ (i ≤ (k : Int) ∧ (k : Int) < i + ((n + 1 : Nat) : Int)) := by
            push_cast; omega
          rw [if_neg h2, if_neg h1, if_neg h3]

theorem init_fields_loop_returns (sz tx : Nat) (n : Nat) :
    ∀ (i : Int) (entries : Block w_entry_t),
      (n = 0 ∨ (entries.addr ≠ 0 ∧ 0 ≤ i ∧
        (i + (n : Int)) * (sz : Int) ≤ (entries.bytes : Int))) →
      ∃ b', init_fields_loop sz tx n i entries = some b' := by
  induction n with
  | zero =>
    intro i entries _
    exact ⟨entries, rfl⟩
  | succ n ih =>
    intro i entries h
    rcases h with h | ⟨ha, hi, hb⟩
    · omega
    · have hsz : (0 : Int) ≤ (sz : Int) := by omega
      have hstep : (i + 1) * (sz : Int) ≤ (i + ((n + 1 : Nat) : Int)) * (sz : Int) :=
        mul_le_mul_of_nonneg_right (by push_cast; omega) hsz
      obtain ⟨e1, hs⟩ := store_tx_returns sz entries i tx ⟨ha, hi, le_trans hstep hb⟩
      obtain ⟨ha1, hb1, _⟩ := store_tx_some sz entries e1 i tx hs
      obtain ⟨b', hb'⟩ := ih (i + 1) e1 (Or.inr ⟨by rw [ha1]; exact ha, by omega, by
        rw [hb1]
        have e : i + 1 + (n : Int) = i + ((n + 1 : Nat) : Int) := by push_cast; ring
        rw [e]
        exact hb⟩)
      refine ⟨b', ?_⟩
      simp only [init_fields_loop, hs]
      exact hb'

theorem init_fields_some (cfg : Config) (tx : mtm_tx_t) (first : Int) (w w' : w_set_t)
    (h : init_fields cfg tx first w = some w') :
    w'.size = w.size ∧ w'.nb_entries = w.nb_entries ∧
      w'.entries.addr = w.entries.addr ∧ w'.entries.bytes = w.entries.bytes ∧
      ∀ k : Nat, w'.entries.cells k
        = if cfg.TRACKING = true ∧ first ≤ (k : Int) ∧ (k : Int) < w.size then
            with_tx (w.entries.cells k) tx.ptr
          else w.entries.cells k := by
  unfold init_fields at h
  by_cases ht : cfg.TRACKING = true
  · rw [if_pos ht] at h
    cases hl : init_fields_loop cfg.sizeof_w_entry_t tx.ptr (w.size - first).toNat first
        w.entries with
    | none => rw [hl] at h; cases h
    | some b' =>
      rw [hl] at h
      simp only [Option.some.injEq] at h
      subst h
      obtain ⟨ha, hb, hc⟩ := init_fields_loop_some _ _ _ _ _ _ hl
      refine ⟨rfl, rfl, ha, hb, fun k => ?_⟩
      show b'.cells k = _
      rw [hc k]
      by_cases hk : first ≤ (k : Int) ∧ (k : Int) < w.size
      · have : first ≤ (k : Int) ∧ (k : Int) < first + ((w.size - first).toNat : Int) := by
          omega
        rw [if_pos this, if_pos ⟨ht, hk⟩]
      · have : ¬ (first ≤ (k : Int) ∧ (k : Int) < first + ((w.size - first).toNat : Int)) := by
          omega
        rw [if_neg this, if_neg (fun h => hk h.2)]
  · rw [if_neg ht] at h
    simp only [Option.some.injEq] at h
    subst h
    refine ⟨rfl, rfl, rfl, rfl, fun k => ?_⟩
    rw [if_neg (fun h => ht h.1)]

theorem init_fields_returns (cfg : Config) (tx : mtm_tx_t) (first : Int) (w : w_set_t)
    (h : cfg.TRACKING = false ∨ w.size ≤ first ∨
      (w.entries.addr ≠ 0 ∧ 0 ≤ first ∧
        w.size * (cfg.sizeof_w_entry_t : Int) ≤ (w.entries.bytes : Int))) :
    ∃ w', init_fields cfg tx first w = some w' := by
  unfold init_fields
  by_cases ht : cfg.TRACKING = true
  · rw [if_pos ht]
    have hloop : ∃ b', init_fields_loop cfg.sizeof_w_entry_t tx.ptr (w.size - first).toNat first
        w.entries = some b' := by
      apply init_fields_loop_returns
      rcases h with h | h | ⟨ha, hf, hb⟩
      · rw [ht] at h; cases h
      · left; omega
      · by_cases hle : w.size ≤ first
        · left; omega
        · right
          refine ⟨ha, hf, ?_⟩
          have : first + ((w.size - first).toNat : Int) = w.size := by omega
          rw [this]
          exact hb
    obtain ⟨b', hb'⟩ := hloop
    rw [hb']
    exact ⟨_, rfl⟩
  · rw [if_neg ht]
    exact ⟨_, rfl⟩

theorem finish_ws_returned (cfg : Config) (tx tx_out : mtm_tx_t) (data : mode_data_t)
    (first : Int) (w : w_set_t) (r : mtm_tx_t × mode_data_t)
    (h : finish_ws cfg tx tx_out data first w = Outcome.returned r) :
    ∃ w', init_fields cfg tx first w = some w' ∧ r = (tx_out, { data with w_set := w' }) := by
  unfold finish_ws at h
  cases hi : init_fields cfg tx first w with
  | none => rw [hi] at h; cases h
  | some w' =>
    rw [hi] at h
    cases h
    exact ⟨w', rfl, rfl⟩

theorem finish_ws_of_some (cfg : Config) (tx tx_out : mtm_tx_t) (data : mode_data_t)
    (first : Int) (w w' : w_set_t) (h : init_fields cfg tx first w = some w') :
    finish_ws cfg tx tx_out data first w
      = Outcome.returned (tx_out, { data with w_set := w' }) := by
  unfold finish_ws
  rw [h]

theorem finish_ws_not_exited (cfg : Config) (tx tx_out : mtm_tx_t) (data : mode_data_t)
    (first : Int) (w : w_set_t) (c : Nat) :
    finish_ws cfg tx tx_out data first w ≠ Outcome.exited c := by
  unfold finish_ws
  cases init_fields cfg tx first w <;> intro h <;> cases h

theorem realloc_block_keeps {α : Type} (old : Block α) (p sz : Nat) (size : Int)
    (fresh : Nat → α) (i : Nat)
    (h0 : size * (sz : Int) ≤ (old.bytes : Int))
    (h1 : 2 * size * (sz : Int) < 18446744073709551616)
    (hi : (i : Int) < size) :
    (realloc_block old p (alloc_bytes (2 * size) sz) sz fresh).cells i = old.cells i := by
  unfold realloc_block
  have hsz : (0 : Int) ≤ (sz : Int) := by omega
  have hb := alloc_bytes_of_nonneg (2 * size) sz (by omega) h1
  have hstep : ((i : Int) + 1) * (sz : Int) ≤ size * (sz : Int) :=
    mul_le_mul_of_nonneg_right (by omega) hsz
  have hle : (i + 1) * sz ≤ min old.bytes (alloc_bytes (2 * size) sz) := by
    have e : (((i + 1) * sz : Nat) : Int) = ((i : Int) + 1) * (sz : Int) := by push_cast; ring
    have h2 : size * (sz : Int) ≤ 2 * size * (sz : Int) := by nlinarith
    have : (((i + 1) * sz : Nat) : Int) ≤ ((min old.bytes (alloc_bytes (2 * size) sz) : Nat) : Int) := by
      rw [e]
      rcases Nat.le_total old.bytes (alloc_bytes (2 * size) sz) with hm | hm
      · rw [Nat.min_eq_left hm]; omega
      · rw [Nat.min_eq_right hm, hb]; omega
    exact_mod_cast this
  simp [hle]

theorem alloc_bytes_of_neg (n : Int) (sz : Nat) (h0 : -2147483648 ≤ n) (h1 : n < 0)
    (hsz0 : 0 < sz) (hsz1 : sz ≤ 4294967296) :
    9223372036854775808 ≤ alloc_bytes n sz := by
  unfold alloc_bytes to_size_t
  obtain ⟨m, hm⟩ : ∃ m : Nat, n = -(m : Int) := ⟨(-n).toNat, by omega⟩
  subst hm
  have hm1 : 1 ≤ m := by omega
  have hm2 : m ≤ 2147483648 := by omega
  have e1 : ((-(m : Int)) % 18446744073709551616).toNat = 18446744073709551616 - m := by omega
  rw [e1, Nat.sub_mul]
  have hp1 : m * sz ≤ 2147483648 * 4294967296 := Nat.mul_le_mul hm2 hsz1
  have hp0 : 1 ≤ m * sz := Nat.mul_pos hm1 hsz0
  have e2 : 18446744073709551616 * sz - m * sz
      = 18446744073709551616 * (sz - 1) + (18446744073709551616 - m * sz) := by
    have : 18446744073709551616 * sz = 18446744073709551616 * (sz - 1) + 18446744073709551616 := by
      have := Nat.mul_succ 18446744073709551616 (sz - 1)
      rw [show (sz - 1).succ = sz by omega] at this
      exact this
    omega
  rw [e2, Nat.mul_add_mod]
  rw [Nat.mod_eq_of_lt (by omega)]
  omega

theorem wrap_nonneg_of_granted (libc : libc_t) (hlibc : allocator_bounded libc) (p : Nat)
    (size : Int) (sz : Nat) (hsz0 : 0 < sz) (hsz1 : sz ≤ 4294967296)
    (hg : libc.realloc p (alloc_bytes (wrap_int (size * 2)) sz) ≠ 0) :
    0 ≤ wrap_int (size * 2) := by
  by_contra hneg
  have hlow : -2147483648 ≤ wrap_int (size * 2) := by unfold wrap_int; omega
  exact hg (hlibc.2.1 p _ (alloc_bytes_of_neg _ sz hlow (by omega) hsz0 hsz1))

theorem no_overflow_of_granted (libc : libc_t) (hlibc : allocator_bounded libc) (p : Nat)
    (size : Int) (sz : Nat) (hsz0 : 0 < sz) (hsz1 : sz ≤ 4294967296)
    (h0 : 0 ≤ size) (h1 : size ≤ INT_MAX)
    (hg : libc.realloc p (alloc_bytes (wrap_int (size * 2)) sz) ≠ 0) :
    size ≤ 1073741823 ∧ wrap_int (size * 2) = 2 * size := by
  have hw := wrap_nonneg_of_granted libc hlibc p size sz hsz0 hsz1 hg
  unfold INT_MAX at h1
  unfold wrap_int at hw ⊢
  omega

theorem doubled_bytes_fit (size : Int) (sz : Nat) (h1 : size ≤ 1073741823)
    (hsz1 : sz ≤ 4294967296) :
    2 * size * (sz : Int) < 18446744073709551616 := by
  have h2 : (sz : Int) ≤ 4294967296 := by exact_mod_cast hsz1
  have h3 : (0 : Int) ≤ (sz : Int) := by omega
  nlinarith

theorem rs_extend_returned (cfg : Config) (libc : libc_t) (tx : mtm_tx_t)
    (data data' : mode_data_t) (extend : Int) (hext : extend ≠ 0)
    (h : mtm_allocate_rs_entries cfg libc tx data extend = Outcome.returned data') :
    libc.realloc data.r_set.entries.addr
        (alloc_bytes (wrap_int (data.r_set.size * 2)) cfg.sizeof_r_entry_t) ≠ 0 ∧
      data'.r_set.size = wrap_int (data.r_set.size * 2) ∧
      data'.r_set.nb_entries = data.r_set.nb_entries ∧
      data'.r_set.entries = realloc_block data.r_set.entries
        (libc.realloc data.r_set.entries.addr
          (alloc_bytes (wrap_int (data.r_set.size * 2)) cfg.sizeof_r_entry_t))
        (alloc_bytes (wrap_int (data.r_set.size * 2)) cfg.sizeof_r_entry_t)
        cfg.sizeof_r_entry_t libc.fresh_r := by
  unfold mtm_allocate_rs_entries at h
  simp only [ne_eq, hext, not_false_eq_true, if_true] at h
  split_ifs at h with hp
  cases h
  exact ⟨hp, rfl, rfl, rfl⟩

theorem ws_extend_returned (cfg : Config) (libc : libc_t) (tx tx' : mtm_tx_t)
    (data data' : mode_data_t) (extend : Int) (hext : extend ≠ 0)
    (h : mtm_allocate_ws_entries cfg libc tx data extend = Outcome.returned (tx', data')) :
    libc.realloc data.w_set.entries.addr
        (alloc_bytes (wrap_int (data.w_set.size * 2)) cfg.sizeof_w_entry_t) ≠ 0 ∧
      tx' = tx ∧
      init_fields cfg tx data.w_set.size
        { data.w_set with
          size := wrap_int (data.w_set.size * 2)
          entries := realloc_block data.w_set.entries
            (libc.realloc data.w_set.entries.addr
              (alloc_bytes (wrap_int (data.w_set.size * 2)) cfg.sizeof_w_entry_t))
            (alloc_bytes (wrap_int (data.w_set.size * 2)) cfg.sizeof_w_entry_t)
            cfg.sizeof_w_entry_t libc.fresh_w } = some data'.w_set := by
  unfold mtm_allocate_ws_entries at h
  simp only [ne_eq, hext, not_false_eq_true, if_true] at h
  split_ifs at h with hp
  obtain ⟨w', hw', hr⟩ := finish_ws_returned _ _ _ _ _ _ _ h
  cases hr
  exact ⟨hp, rfl, hw'⟩

theorem ws_extend_returns (cfg : Config) (libc : libc_t) (tx : mtm_tx_t) (data : mode_data_t)
    (extend : Int) (hext : extend ≠ 0)
    (h0 : 0 ≤ data.w_set.size) (h1 : data.w_set.size ≤ 1073741823)
    (hg : libc.realloc data.w_set.entries.addr
      (alloc_bytes (wrap_int (data.w_set.size * 2)) cfg.sizeof_w_entry_t) ≠ 0) :
    ∃ tx' data', mtm_allocate_ws_entries cfg libc tx data extend
      = Outcome.returned (tx', data') := by
  have hw : wrap_int (data.w_set.size * 2) = 2 * data.w_set.size := by
    rw [wrap_int_of_range] <;> omega
  have hfit := doubled_bytes_fit data.w_set.size cfg.sizeof_w_entry_t h1
    cfg.sizeof_w_entry_t_le
  obtain ⟨w', hw'⟩ := init_fields_returns cfg tx data.w_set.size
    { data.w_set with
      size := wrap_int (data.w_set.size * 2)
      entries := realloc_block data.w_set.entries
        (libc.realloc data.w_set.entries.addr
          (alloc_bytes (wrap_int (data.w_set.size * 2)) cfg.sizeof_w_entry_t))
        (alloc_bytes (wrap_int (data.w_set.size * 2)) cfg.sizeof_w_entry_t)
        cfg.sizeof_w_entry_t libc.fresh_w }
    (Or.inr (Or.inr ⟨hg, h0, by
      show wrap_int (data.w_set.size * 2) * (cfg.sizeof_w_entry_t : Int)
        ≤ (alloc_bytes (wrap_int (data.w_set.size * 2)) cfg.sizeof_w_entry_t : Int)
      rw [hw, alloc_bytes_of_nonneg _ _ (by omega) hfit]⟩))
  unfold mtm_allocate_ws_entries
  simp only [ne_eq, hext, not_false_eq_true, if_true]
  rw [if_neg hg, finish_ws_of_some _ _ _ _ _ _ _ hw']
  exact ⟨_, _, rfl⟩

theorem libc_real_bounded : allocator_bounded libc_real := by
  refine ⟨fun b hb => ?_, fun p b hb => ?_, fun a b hb => ?_⟩
  · show (if b < 9223372036854775808 then 65536 else 0) = 0
    rw [if_neg (by omega)]
  · show (if b < 9223372036854775808 then 131072 else 0) = 0
    rw [if_neg (by omega)]
  · show (if b < 9223372036854775808 then ((0 : Nat), (196608 : Nat)) else (12, 0)).1 ≠ 0
    rw [if_neg (by omega)]
    decide

/-- C6: for both `mtm_allocate_rs_entries` and `mtm_allocate_ws_entries` called
with `extend` true on a set of capacity `size` (a C `int`, `0 ≤ size ≤
INT_MAX`), with an allocator that refuses what no allocator can grant
(`allocator_bounded`): after every call that returns, the capacity is exactly
`2 * size`, `nb_entries` is unchanged, and every entry at an index below the
old capacity, which the storage held, is identical; and the call does return
when `size ≤ INT_MAX / 2` and the reallocation is granted. -/
theorem extend_doubles_capacity_and_keeps_entries (cfg : Config) (libc : libc_t)
    (tx : mtm_tx_t) (data : mode_data_t) (extend : Int) (hext : extend ≠ 0)
    (hlibc : allocator_bounded libc) :
    (0 ≤ data.r_set.size → data.r_set.size ≤ INT_MAX →
        (∀ data', mtm_allocate_rs_entries cfg libc tx data extend = Outcome.returned data' →
          data'.r_set.size = 2 * data.r_set.size ∧
            data'.r_set.nb_entries = data.r_set.nb_entries ∧
            (data.r_set.size * (cfg.sizeof_r_entry_t : Int)
                ≤ (data.r_set.entries.bytes : Int) →
              ∀ i : Nat, (i : Int) < data.r_set.size →
                data'.r_set.entries.cells i = data.r_set.entries.cells i)) ∧
          (data.r_set.size ≤ INT_MAX / 2 →
            libc.realloc data.r_set.entries.addr
                (alloc_bytes (wrap_int (data.r_set.size * 2)) cfg.sizeof_r_entry_t) ≠ 0 →
            ∃ data', mtm_allocate_rs_entries cfg libc tx data extend
              = Outcome.returned data')) ∧
      (0 ≤ data.w_set.size → data.w_set.size ≤ INT_MAX →
        (∀ tx' data', mtm_allocate_ws_entries cfg libc tx data extend
            = Outcome.returned (tx', data') →
          data'.w_set.size = 2 * data.w_set.size ∧
            data'.w_set.nb_entries = data.w_set.nb_entries ∧
            (data.w_set.size * (cfg.sizeof_w_entry_t : Int)
                ≤ (data.w_set.entries.bytes : Int) →
              ∀ i : Nat, (i : Int) < data.w_set.size →
                data'.w_set.entries.cells i = data.w_set.entries.cells i)) ∧
          (data.w_set.size ≤ INT_MAX / 2 →
            libc.realloc data.w_set.entries.addr
                (alloc_bytes (wrap_int (data.w_set.size * 2)) cfg.sizeof_w_entry_t) ≠ 0 →
            ∃ tx' data', mtm_allocate_ws_entries cfg libc tx data extend
              = Outcome.returned (tx', data'))) := by
  constructor
  · intro h0 h1
    constructor
    · intro data' h
      obtain ⟨hg, hsize, hnb, hentries⟩ := rs_extend_returned cfg libc tx data data' extend hext h
      obtain ⟨hlt, hw⟩ := no_overflow_of_granted libc hlibc _ _ _ cfg.sizeof_r_entry_t_pos
        cfg.sizeof_r_entry_t_le h0 h1 hg
      refine ⟨by rw [hsize, hw], hnb, fun hback i hi => ?_⟩
      rw [hentries, hw]
      exact realloc_block_keeps _ _ _ _ _ i hback
        (doubled_bytes_fit _ _ hlt cfg.sizeof_r_entry_t_le) hi
    · intro _ hg
      unfold mtm_allocate_rs_entries
      simp only [ne_eq, hext, not_false_eq_true, if_true]
      rw [if_neg hg]
      exact ⟨_, rfl⟩
  · intro h0 h1
    constructor
    · intro tx' data' h
      obtain ⟨hg, _, hinit⟩ := ws_extend_returned cfg libc tx tx' data data' extend hext h
      obtain ⟨hlt, hw⟩ := no_overflow_of_granted libc hlibc _ _ _ cfg.sizeof_w_entry_t_pos
        cfg.sizeof_w_entry_t_le h0 h1 hg
      obtain ⟨hsize, hnb, _, _, hcells⟩ := init_fields_some cfg tx _ _ _ hinit
      refine ⟨by rw [hsize]; exact hw, hnb, fun hback i hi => ?_⟩
      rw [hcells i]
      have hno : ¬ (cfg.TRACKING = true ∧ data.w_set.size ≤ (i : Int) ∧
          (i : Int) < wrap_int (data.w_set.size * 2)) := by omega
      rw [if_neg hno]
      show (realloc_block data.w_set.entries _
        (alloc_bytes (wrap_int (data.w_set.size * 2)) cfg.sizeof_w_entry_t) _ _).cells i = _
      rw [hw]
      exact realloc_block_keeps _ _ _ _ _ i hback
        (doubled_bytes_fit _ _ hlt cfg.sizeof_w_entry_t_le) hi
    · intro h2 hg
      rw [int_max_half] at h2
      exact ws_extend_returns cfg libc tx data extend hext h0 h2 hg

/-- C6, exercised: sets of capacity 4 with 2 entries in use grow to capacity 8
and keep their entries; a set of capacity 2^30 cannot be extended, the call
ends in `exit(1)`. -/
theorem extend_doubles_capacity_and_keeps_entries_witness :
    (1 : Int) ≠ 0 ∧ allocator_bounded libc_real ∧
      (returned_value
        (mtm_allocate_rs_entries (spec_config design_t.WRITE_BACK cm_t.CM_PRIORITY true)
          libc_real tx_demo (data_sized [{ version := 7, lock := 64 }] 2 4) 1)).map
        (fun d => (d.r_set.size, d.r_set.nb_entries, d.r_set.entries.cells 0,
          d.r_set.entries.cells 1)) = some (8, 2, { version := 7, lock := 64 },
            { version := 0, lock := 0 }) ∧
      (returned_value
        (mtm_allocate_ws_entries (spec_config design_t.WRITE_BACK cm_t.CM_PRIORITY true)
          libc_real tx_demo (data_sized [{ version := 7, lock := 64 }] 2 4) 1)).map
        (fun r => (r.2.w_set.size, r.2.w_set.nb_entries)) = some (8, 2) ∧
      mtm_allocate_rs_entries (spec_config design_t.WRITE_BACK cm_t.CM_PRIORITY true)
          libc_real tx_demo (data_sized [] 0 1073741824) 1 = Outcome.exited 1 ∧
      (∀ data', mtm_allocate_rs_entries (spec_config design_t.WRITE_BACK cm_t.CM_PRIORITY true)
            libc_real tx_demo (data_sized [{ version := 7, lock := 64 }] 2 4) 1
            = Outcome.returned data' →
          data'.r_set.size = 2 * (data_sized [{ version := 7, lock := 64 }] 2 4).r_set.size ∧
            data'.r_set.nb_entries
              = (data_sized [{ version := 7, lock := 64 }] 2 4).r_set.nb_entries ∧
            ((data_sized [{ version := 7, lock := 64 }] 2 4).r_set.size
                  * ((spec_config design_t.WRITE_BACK cm_t.CM_PRIORITY true).sizeof_r_entry_t
                    : Int)
                ≤ ((data_sized [{ version := 7, lock := 64 }] 2 4).r_set.entries.bytes : Int) →
              ∀ i : Nat, (i : Int) < (data_sized [{ version := 7, lock := 64 }] 2 4).r_set.size →
                data'.r_set.entries.cells i
                  = (data_sized [{ version := 7, lock := 64 }] 2 4).r_set.entries.cells i)) ∧
      (∃ tx' data', mtm_allocate_ws_entries
          (spec_config design_t.WRITE_BACK cm_t.CM_PRIORITY true) libc_real tx_demo
          (data_sized [{ version := 7, lock := 64 }] 2 4) 1 = Outcome.returned (tx', data')) :=
  have h := extend_doubles_capacity_and_keeps_entries
    (spec_config design_t.WRITE_BACK cm_t.CM_PRIORITY true) libc_real tx_demo
    (data_sized [{ version := 7, lock := 64 }] 2 4) 1 (by decide) libc_real_bounded
  ⟨by decide, libc_real_bounded, by decide, by decide, rfl,
    (h.1 (by decide) (by decide)).1,
    (h.2 (by decide) (by decide)).2 (by decide) (by decide)⟩

theorem ws_fresh_returned (cfg : Config) (libc : libc_t) (tx tx' : mtm_tx_t)
    (data data' : mode_data_t)
    (h : mtm_allocate_ws_entries cfg libc tx data 0 = Outcome.returned (tx', data')) :
    ∃ w : w_set_t, w.size = data.w_set.size ∧ w.nb_entries = data.w_set.nb_entries ∧
      init_fields cfg tx 0 w = some data'.w_set ∧
      tx'.w_set.nb_entries = tx.w_set.nb_entries ∧ tx'.w_set.size = tx.w_set.size ∧
      (cfg.CM = cm_t.CM_PRIORITY →
        w.entries = malloc_block
          (libc.posix_memalign cfg.ALIGNMENT
            (alloc_bytes data.w_set.size cfg.sizeof_w_entry_t)).2
          (alloc_bytes data.w_set.size cfg.sizeof_w_entry_t) libc.fresh_w) ∧
      (cfg.CM ≠ cm_t.CM_PRIORITY → w = data.w_set) := by
  unfold mtm_allocate_ws_entries at h
  simp only [ne_eq, not_true_eq_false, if_false] at h
  split at h
  · rename_i hcm
    split_ifs at h with hp
    obtain ⟨w', hw', hr⟩ := finish_ws_returned _ _ _ _ _ _ _ h
    cases hr
    exact ⟨{ data.w_set with
        entries := malloc_block
          (libc.posix_memalign cfg.ALIGNMENT
            (alloc_bytes data.w_set.size cfg.sizeof_w_entry_t)).2
          (alloc_bytes data.w_set.size cfg.sizeof_w_entry_t) libc.fresh_w },
      rfl, rfl, hw', rfl, rfl, fun _ => rfl, fun hne => absurd hcm hne⟩
  · rename_i hcm
    split_ifs at h with hp
    obtain ⟨w', hw', hr⟩ := finish_ws_returned _ _ _ _ _ _ _ h
    cases hr
    refine ⟨data.w_set, rfl, rfl, hw', rfl, rfl, fun hc => ?_, fun _ => rfl⟩
    exact absurd hc (hcm)

/-- With `extend` false, `mtm_allocate_rs_entries`, and `mtm_allocate_ws_entries`
under `CM_PRIORITY`, leave `size` alone and install in the container they were
passed a new block of `size * sizeof(entry)` bytes. -/
theorem allocate_installs_in_passed_container (cfg : Config) (libc : libc_t) (tx : mtm_tx_t)
    (data : mode_data_t) :
    (∀ data', mtm_allocate_rs_entries cfg libc tx data 0 = Outcome.returned data' →
        data'.r_set.size = data.r_set.size ∧
          data'.r_set.entries.addr = libc.malloc (alloc_bytes data.r_set.size cfg.sizeof_r_entry_t) ∧
          data'.r_set.entries.addr ≠ 0 ∧
          data'.r_set.entries.bytes = alloc_bytes data.r_set.size cfg.sizeof_r_entry_t) ∧
      (cfg.CM = cm_t.CM_PRIORITY →
        ∀ tx' data', mtm_allocate_ws_entries cfg libc tx data 0 = Outcome.returned (tx', data') →
          data'.w_set.size = data.w_set.size ∧
            data'.w_set.entries.addr
              = (libc.posix_memalign cfg.ALIGNMENT
                  (alloc_bytes data.w_set.size cfg.sizeof_w_entry_t)).2 ∧
            data'.w_set.entries.bytes = alloc_bytes data.w_set.size cfg.sizeof_w_entry_t) := by
  constructor
  · intro data' h
    unfold mtm_allocate_rs_entries at h
    simp only [ne_eq, not_true_eq_false, if_false] at h
    split_ifs at h with hp
    cases h
    exact ⟨rfl, rfl, hp, rfl⟩
  · intro hcm tx' data' h
    obtain ⟨w, hsz, _, hinit, _, _, hprio, _⟩ := ws_fresh_returned cfg libc tx tx' data data' h
    obtain ⟨h1, _, h3, h4, _⟩ := init_fields_some cfg tx 0 w _ hinit
    refine ⟨by rw [h1, hsz], ?_, ?_⟩
    · rw [h3, hprio hcm]
      rfl
    · rw [h4, hprio hcm]
      rfl

/-- C7, the code at the failing input: under a contention policy other than
`CM_PRIORITY`, `mtm_allocate_ws_entries(tx, data, 0)` on sets without storage
returns with `data->w_set.entries` still `NULL` (address 0, 0 bytes) and
capacity 8, having installed the new block (address 65536) in `tx->w_set`,
sized for the 2 entries of `tx->w_set.size` (80 bytes) instead of the 8 of
`data->w_set.size`; under `CM_PRIORITY` the same call installs 320 bytes at
196608 in `data->w_set`. -/
theorem ws_allocate_other_cm_installs_in_tx :
    (returned_value
        (mtm_allocate_ws_entries (spec_config design_t.WRITE_BACK cm_t.CM_OTHER false) libc_grant
          tx_unallocated data_unallocated 0)).map
        (fun r => (r.2.w_set.entries.addr, r.2.w_set.entries.bytes, r.2.w_set.size,
          r.1.w_set.entries.addr, r.1.w_set.entries.bytes))
        = some (0, 0, 8, 65536, 80) ∧
      (returned_value
        (mtm_allocate_ws_entries (spec_config design_t.WRITE_BACK cm_t.CM_PRIORITY false)
          libc_grant tx_unallocated data_unallocated 0)).map
        (fun r => (r.2.w_set.entries.addr, r.2.w_set.entries.bytes, r.2.w_set.size,
          r.1.w_set.entries.addr, r.1.w_set.entries.bytes))
        = some (196608, 320, 8, 0, 0) := by
  decide

/-- C8: for a read or write set with `nb_entries ≤ size`, `size` being a C `int`
(`INT_MIN ≤ size ≤ INT_MAX`, `size *= 2` wrapping modulo 2^32), and an
allocator that refuses what no allocator can grant (`allocator_bounded`):
after every call of `mtm_allocate_rs_entries` or `mtm_allocate_ws_entries`
that returns, with `extend` true or false, `nb_entries ≤ size` still holds
and the new `size` is not smaller than the old one; the size and count of
`tx->w_set` are not changed either. -/
theorem allocate_keeps_count_le_capacity (cfg : Config) (libc : libc_t) (tx : mtm_tx_t)
    (data : mode_data_t) (extend : Int) (hlibc : allocator_bounded libc) :
    (INT_MIN ≤ data.r_set.size → data.r_set.size ≤ INT_MAX →
        data.r_set.nb_entries ≤ data.r_set.size →
        ∀ data', mtm_allocate_rs_entries cfg libc tx data extend = Outcome.returned data' →
          data'.r_set.nb_entries ≤ data'.r_set.size ∧ data.r_set.size ≤ data'.r_set.size) ∧
      (INT_MIN ≤ data.w_set.size → data.w_set.size ≤ INT_MAX →
        data.w_set.nb_entries ≤ data.w_set.size →
        ∀ tx' data', mtm_allocate_ws_entries cfg libc tx data extend
            = Outcome.returned (tx', data') →
          data'.w_set.nb_entries ≤ data'.w_set.size ∧ data.w_set.size ≤ data'.w_set.size ∧
            tx'.w_set.nb_entries = tx.w_set.nb_entries ∧ tx'.w_set.size = tx.w_set.size) := by
  have hgrow : ∀ (size nb : Int), INT_MIN ≤ size → size ≤ INT_MAX → nb ≤ size →
      0 ≤ wrap_int (size * 2) → nb ≤ wrap_int (size * 2) ∧ size ≤ wrap_int (size * 2) := by
    intro size nb h0 h1 h2 h3
    unfold INT_MIN at h0
    unfold INT_MAX at h1
    unfold wrap_int at h3 ⊢
    omega
  constructor
  · intro h0 h1 hinv data' h
    by_cases hext : extend = 0
    · subst hext
      unfold mtm_allocate_rs_entries at h
      simp only [ne_eq, not_true_eq_false, if_false] at h
      split_ifs at h with hp
      cases h
      exact ⟨hinv, le_refl _⟩
    · obtain ⟨hg, hsize, hnb, _⟩ := rs_extend_returned cfg libc tx data data' extend hext h
      have hw := wrap_nonneg_of_granted libc hlibc _ _ _ cfg.sizeof_r_entry_t_pos
        cfg.sizeof_r_entry_t_le hg
      rw [hsize, hnb]
      exact hgrow _ _ h0 h1 hinv hw
  · intro h0 h1 hinv tx' data' h
    by_cases hext : extend = 0
    · subst hext
      obtain ⟨w, hsz, hnb, hinit, htn, hts, _, _⟩ :=
        ws_fresh_returned cfg libc tx tx' data data' h
      obtain ⟨h1', h2', _⟩ := init_fields_some cfg tx 0 w _ hinit
      refine ⟨by rw [h1', h2', hsz, hnb]; exact hinv, by rw [h1', hsz], htn, hts⟩
    · obtain ⟨hg, htx, hinit⟩ := ws_extend_returned cfg libc tx tx' data data' extend hext h
      obtain ⟨h1', h2', _⟩ := init_fields_some cfg tx _ _ _ hinit
      have hw := wrap_nonneg_of_granted libc hlibc _ _ _ cfg.sizeof_w_entry_t_pos
        cfg.sizeof_w_entry_t_le hg
      have hboth := hgrow _ _ h0 h1 hinv hw
      rw [h1', h2', htx]
      exact ⟨hboth.1, hboth.2, rfl, rfl⟩

/-- C8, exercised: full sets of capacity 4 are extended to capacity 8; a full
set of capacity 2^30, whose doubled size wraps to -2^31, cannot be extended:
the reallocation is refused and both calls end in `exit(1)`. -/
theorem allocate_keeps_count_le_capacity_witness :
    allocator_bounded libc_real ∧
      INT_MIN ≤ (data_sized [] 4 4).r_set.size ∧ (data_sized [] 4 4).r_set.size ≤ INT_MAX ∧
      (data_sized [] 4 4).r_set.nb_entries ≤ (data_sized [] 4 4).r_set.size ∧
      (returned_value
        (mtm_allocate_rs_entries (spec_config design_t.WRITE_BACK cm_t.CM_OTHER true)
          libc_real tx_demo (data_sized [] 4 4) 1)).map
        (fun d => (d.r_set.nb_entries, d.r_set.size)) = some (4, 8) ∧
      (returned_value
        (mtm_allocate_ws_entries (spec_config design_t.WRITE_BACK cm_t.CM_OTHER true)
          libc_real tx_demo (data_sized [] 4 4) 1)).map
        (fun r => (r.2.w_set.nb_entries, r.2.w_set.size)) = some (4, 8) ∧
      mtm_allocate_rs_entries (spec_config design_t.WRITE_BACK cm_t.CM_OTHER true)
          libc_real tx_demo (data_sized [] 1073741824 1073741824) 1 = Outcome.exited 1 ∧
      mtm_allocate_ws_entries (spec_config design_t.WRITE_BACK cm_t.CM_OTHER true)
          libc_real tx_demo (data_sized [] 1073741824 1073741824) 1 = Outcome.exited 1 ∧
      (∀ data', mtm_allocate_rs_entries (spec_config design_t.WRITE_BACK cm_t.CM_OTHER true)
            libc_real tx_demo (data_sized [] 4 4) 1 = Outcome.returned data' →
          data'.r_set.nb_entries ≤ data'.r_set.size ∧
            (data_sized [] 4 4).r_set.size ≤ data'.r_set.size) ∧
      (∀ tx' data', mtm_allocate_ws_entries
            (spec_config design_t.WRITE_BACK cm_t.CM_OTHER true) libc_real tx_demo
            (data_sized [] 4 4) 1 = Outcome.returned (tx', data') →
          data'.w_set.nb_entries ≤ data'.w_set.size ∧
            (data_sized [] 4 4).w_set.size ≤ data'.w_set.size ∧
            tx'.w_set.nb_entries = tx_demo.w_set.nb_entries ∧
            tx'.w_set.size = tx_demo.w_set.size) :=
  have h := allocate_keeps_count_le_capacity
    (spec_config design_t.WRITE_BACK cm_t.CM_OTHER true) libc_real tx_demo (data_sized [] 4 4) 1
    libc_real_bounded
  ⟨libc_real_bounded, by decide, by decide, by decide, by decide, by decide, rfl, rfl,
    h.1 (by decide) (by decide) (by decide), h.2 (by decide) (by decide) (by decide)⟩

theorem realloc_block_keeps_of_storage_kept {α : Type} (old : Block α) (p sz : Nat)
    (size : Int) (fresh : Nat → α) (i : Nat) (hk : storage_kept old size sz)
    (hi : (i : Int) < size) :
    (realloc_block old p (alloc_bytes (wrap_int (size * 2)) sz) sz fresh).cells i
      = old.cells i := by
  unfold realloc_block
  obtain ⟨h0, h1⟩ := hk
  have hsz : (0 : Int) ≤ (sz : Int) := by omega
  have hstep : ((i : Int) + 1) * (sz : Int) ≤ size * (sz : Int) :=
    mul_le_mul_of_nonneg_right (by omega) hsz
  have e : (((i + 1) * sz : Nat) : Int) = ((i : Int) + 1) * (sz : Int) := by push_cast; ring
  have hle : (i + 1) * sz ≤ min old.bytes (alloc_bytes (wrap_int (size * 2)) sz) := by
    have : (((i + 1) * sz : Nat) : Int)
        ≤ ((min old.bytes (alloc_bytes (wrap_int (size * 2)) sz) : Nat) : Int) := by
      rw [e]
      rcases Nat.le_total old.bytes (alloc_bytes (wrap_int (size * 2)) sz) with hm | hm
      · rw [Nat.min_eq_left hm]; omega
      · rw [Nat.min_eq_right hm]; omega
    exact_mod_cast this
  simp [hle]

/-- C10: when `READ_LOCKED_DATA` or `CONFLICT_TRACKING` is enabled and
`mtm_allocate_ws_entries(tx, data, extend)` returns: with `extend` false every
slot of `data->w_set` in `[0, size)` carries the back-reference `tx`; with
`extend` true the slots in `[old size, new size)` carry `tx`, no other slot is
written by the initialisation, the slots below the old size (kept by the
reallocation) keep their contents and hence their back-reference, and so every
slot in `[0, new size)` carries `tx` when those below the old size did. -/
theorem ws_allocate_sets_back_references (cfg : Config) (libc : libc_t) (tx tx' : mtm_tx_t)
    (data data' : mode_data_t) (extend : Int) (htrack : cfg.TRACKING = true)
    (hret : mtm_allocate_ws_entries cfg libc tx data extend = Outcome.returned (tx', data')) :
    (extend = 0 →
        ∀ i : Nat, (i : Int) < data'.w_set.size → (data'.w_set.entries.cells i).tx = tx.ptr) ∧
      (extend ≠ 0 →
        (∀ i : Nat, data.w_set.size ≤ (i : Int) → (i : Int) < data'.w_set.size →
            (data'.w_set.entries.cells i).tx = tx.ptr) ∧
          (∀ i : Nat, ¬ (data.w_set.size ≤ (i : Int) ∧ (i : Int) < data'.w_set.size) →
            data'.w_set.entries.cells i =
              (realloc_block data.w_set.entries data'.w_set.entries.addr
                data'.w_set.entries.bytes cfg.sizeof_w_entry_t libc.fresh_w).cells i) ∧
          (storage_kept data.w_set.entries data.w_set.size cfg.sizeof_w_entry_t →
            (∀ i : Nat, (i : Int) < data.w_set.size →
              data'.w_set.entries.cells i = data.w_set.entries.cells i) ∧
            ((∀ i : Nat, (i : Int) < data.w_set.size →
                (data.w_set.entries.cells i).tx = tx.ptr) →
              ∀ i : Nat, (i : Int) < data'.w_set.size →
                (data'.w_set.entries.cells i).tx = tx.ptr))) := by
  constructor
  · intro hext
    subst hext
    obtain ⟨w, hw, _, hinit, _⟩ := ws_fresh_returned cfg libc tx tx' data data' hret
    obtain ⟨hsize, _, _, _, hcells⟩ := init_fields_some cfg tx 0 w _ hinit
    intro i hi
    rw [hsize] at hi
    rw [hcells i, if_pos ⟨htrack, by omega, hi⟩]
    rfl
  · intro hext
    obtain ⟨_, _, hinit⟩ := ws_extend_returned cfg libc tx tx' data data' extend hext hret
    obtain ⟨hsize, _, haddr, hbytes, hcells⟩ := init_fields_some cfg tx _ _ _ hinit
    have hsize : data'.w_set.size = wrap_int (data.w_set.size * 2) := hsize
    have haddr : data'.w_set.entries.addr = libc.realloc data.w_set.entries.addr
        (alloc_bytes (wrap_int (data.w_set.size * 2)) cfg.sizeof_w_entry_t) := haddr
    have hbytes : data'.w_set.entries.bytes
        = alloc_bytes (wrap_int (data.w_set.size * 2)) cfg.sizeof_w_entry_t := hbytes
    have hnew : ∀ i : Nat, data.w_set.size ≤ (i : Int) → (i : Int) < data'.w_set.size →
        (data'.w_set.entries.cells i).tx = tx.ptr := by
      intro i h1 h2
      rw [hsize] at h2
      rw [hcells i, if_pos ⟨htrack, h1, h2⟩]
      rfl
    have hout : ∀ i : Nat, ¬ (data.w_set.size ≤ (i : Int) ∧ (i : Int) < data'.w_set.size) →
        data'.w_set.entries.cells i =
          (realloc_block data.w_set.entries data'.w_set.entries.addr
            data'.w_set.entries.bytes cfg.sizeof_w_entry_t libc.fresh_w).cells i := by
      intro i hn
      rw [hsize] at hn
      rw [haddr, hbytes, hcells i, if_neg (fun h => hn h.2)]
    refine ⟨hnew, hout, fun hk => ?_⟩
    have hold : ∀ i : Nat, (i : Int) < data.w_set.size →
        data'.w_set.entries.cells i = data.w_set.entries.cells i := by
      intro i hi
      rw [hout i (by omega), hbytes]
      exact realloc_block_keeps_of_storage_kept _ _ _ _ _ i hk hi
    refine ⟨hold, fun hall i hi => ?_⟩
    by_cases hlt : (i : Int) < data.w_set.size
    · rw [hold i hlt]
      exact hall i hlt
    · exact hnew i (by omega) hi

/-- C10, exercised: the first allocation of a write set of capacity 4 stamps
its 4 slots with `tx_demo`; extending it stamps slots 4 to 7 and keeps the
first 4, so all 8 slots carry the back-reference. -/
theorem ws_allocate_sets_back_references_witness :
    cfg_tracking.TRACKING = true ∧
      mtm_allocate_ws_entries cfg_tracking libc_grant tx_demo (data_sized [] 0 4) 0
        = Outcome.returned (ws_first.1, ws_first.2) ∧
      mtm_allocate_ws_entries cfg_tracking libc_grant tx_demo ws_first.2 1
        = Outcome.returned (ws_second.1, ws_second.2) ∧
      storage_kept ws_first.2.w_set.entries ws_first.2.w_set.size
        cfg_tracking.sizeof_w_entry_t ∧
      ws_first.2.w_set.size = 4 ∧ ws_second.2.w_set.size = 8 ∧
      (∀ i : Nat, (i : Int) < ws_first.2.w_set.size →
        (ws_first.2.w_set.entries.cells i).tx = tx_demo.ptr) ∧
      (∀ i : Nat, (i : Int) < ws_second.2.w_set.size →
        (ws_second.2.w_set.entries.cells i).tx = tx_demo.ptr) :=
  have hkept : storage_kept ws_first.2.w_set.entries ws_first.2.w_set.size
      cfg_tracking.sizeof_w_entry_t := by
    unfold storage_kept; decide
  have hfirst : ∀ i : Nat, (i : Int) < ws_first.2.w_set.size →
      (ws_first.2.w_set.entries.cells i).tx = tx_demo.ptr :=
    (ws_allocate_sets_back_references cfg_tracking libc_grant tx_demo ws_first.1
      (data_sized [] 0 4) ws_first.2 0 rfl rfl).1 rfl
  ⟨rfl, rfl, rfl, hkept, by decide, by decide, hfirst,
    (((ws_allocate_sets_back_references cfg_tracking libc_grant tx_demo ws_second.1
      ws_first.2 ws_second.2 1 rfl rfl).2 (by decide)).2.2 hkept).2 hfirst⟩


/-! ## Growth of the read set -/

/-- C11: `mtm_has_read` and `mtm_validate` are valid only for an ACTIVE
transaction.  When `tx->status` is `TX_ACTIVE` the assertion holds and each
call returns a result; when it is anything else (IDLE, COMMITTED, ABORTED) the
assertion fails and no lookup or validation result is produced. -/
theorem status_assertion_guards_calls (cfg : Config) (tx : mtm_tx_t) (modedata : mode_data_t)
    (mem : Nat → mtm_word_t) (lock : Nat) :
    (tx.status = tx_status_t.TX_ACTIVE →
        (∃ r, mtm_has_read tx modedata lock = Outcome.returned r) ∧
          (∃ v, mtm_validate cfg tx modedata mem = Outcome.returned v)) ∧
      (tx.status ≠ tx_status_t.TX_ACTIVE →
        mtm_has_read tx modedata lock = Outcome.assert_failed ∧
          mtm_validate cfg tx modedata mem = Outcome.assert_failed ∧
          returned_value (mtm_has_read tx modedata lock) = none ∧
          returned_value (mtm_validate cfg tx modedata mem) = none) := by
  constructor
  · intro h
    unfold mtm_has_read mtm_validate
    rw [if_pos h, if_pos h]
    exact ⟨⟨_, rfl⟩, ⟨_, rfl⟩⟩
  · intro h
    unfold mtm_has_read mtm_validate
    rw [if_neg h, if_neg h]
    exact ⟨rfl, rfl, rfl, rfl⟩

/-- C11, exercised: the ACTIVE `tx_demo` gets its results (stripe 64 found at
position 1, validation 0), and the same calls on an IDLE, a COMMITTED and an
ABORTED descriptor stop at the assertion. -/
theorem status_assertion_guards_calls_witness :
    tx_demo.status = tx_status_t.TX_ACTIVE ∧
      mtm_has_read tx_demo data_stale 64 = Outcome.returned (some 1) ∧
      mtm_validate (spec_config design_t.WRITE_BACK cm_t.CM_OTHER false) tx_demo data_stale
        mem_demo = Outcome.returned 0 ∧
      (tx_in tx_status_t.TX_IDLE).status ≠ tx_status_t.TX_ACTIVE ∧
      (tx_in tx_status_t.TX_COMMITTED).status ≠ tx_status_t.TX_ACTIVE ∧
      (tx_in tx_status_t.TX_ABORTED).status ≠ tx_status_t.TX_ACTIVE ∧
      (mtm_has_read (tx_in tx_status_t.TX_IDLE) data_stale 64 = Outcome.assert_failed ∧
        mtm_validate (spec_config design_t.WRITE_BACK cm_t.CM_OTHER false)
          (tx_in tx_status_t.TX_IDLE) data_stale mem_demo = Outcome.assert_failed ∧
        returned_value (mtm_has_read (tx_in tx_status_t.TX_IDLE) data_stale 64) = none ∧
        returned_value (mtm_validate (spec_config design_t.WRITE_BACK cm_t.CM_OTHER false)
          (tx_in tx_status_t.TX_IDLE) data_stale mem_demo) = none) ∧
      (mtm_has_read (tx_in tx_status_t.TX_COMMITTED) data_stale 64 = Outcome.assert_failed ∧
        mtm_validate (spec_config design_t.WRITE_BACK cm_t.CM_OTHER false)
          (tx_in tx_status_t.TX_COMMITTED) data_stale mem_demo = Outcome.assert_failed ∧
        returned_value (mtm_has_read (tx_in tx_status_t.TX_COMMITTED) data_stale 64) = none ∧
        returned_value (mtm_validate (spec_config design_t.WRITE_BACK cm_t.CM_OTHER false)
          (tx_in tx_status_t.TX_COMMITTED) data_stale mem_demo) = none) ∧
      (mtm_has_read (tx_in tx_status_t.TX_ABORTED) data_stale 64 = Outcome.assert_failed ∧
        mtm_validate (spec_config design_t.WRITE_BACK cm_t.CM_OTHER false)
          (tx_in tx_status_t.TX_ABORTED) data_stale mem_demo = Outcome.assert_failed ∧
        returned_value (mtm_has_read (tx_in tx_status_t.TX_ABORTED) data_stale 64) = none ∧
        returned_value (mtm_validate (spec_config design_t.WRITE_BACK cm_t.CM_OTHER false)
          (tx_in tx_status_t.TX_ABORTED) data_stale mem_demo) = none) :=
  ⟨rfl, by decide, by decide, by decide, by decide, by decide,
    (status_assertion_guards_calls (spec_config design_t.WRITE_BACK cm_t.CM_OTHER false)
      (tx_in tx_status_t.TX_IDLE) data_stale mem_demo 64).2 (by decide),
    (status_assertion_guards_calls (spec_config design_t.WRITE_BACK cm_t.CM_OTHER false)
      (tx_in tx_status_t.TX_COMMITTED) data_stale mem_demo 64).2 (by decide),
    (status_assertion_guards_calls (spec_config design_t.WRITE_BACK cm_t.CM_OTHER false)
      (tx_in tx_status_t.TX_ABORTED) data_stale mem_demo 64).2 (by decide)⟩

/-! ## Allocation failure -/

/-- On every path `mtm_allocate_rs_entries` ends in `exit(1)` exactly when the
allocator answers `NULL`, and otherwise returns with that answer, which is not
`NULL`, as the storage of `data->r_set`. -/
theorem rs_allocate_exits_iff_allocation_fails (cfg : Config) (libc : libc_t) (tx : mtm_tx_t)
    (data : mode_data_t) (extend : Int) :
    (mtm_allocate_rs_entries cfg libc tx data extend = Outcome.exited 1 ↔
        (if extend ≠ 0 then
            libc.realloc data.r_set.entries.addr
              (alloc_bytes (wrap_int (data.r_set.size * 2)) cfg.sizeof_r_entry_t)
          else libc.malloc (alloc_bytes data.r_set.size cfg.sizeof_r_entry_t)) = 0) ∧
      (mtm_allocate_rs_entries cfg libc tx data extend = Outcome.exited 1 ∨
        ∃ data', mtm_allocate_rs_entries cfg libc tx data extend = Outcome.returned data' ∧
          data'.r_set.entries.addr ≠ 0) := by
  unfold mtm_allocate_rs_entries
  by_cases hext : extend = 0
  · subst hext
    by_cases hp : libc.malloc (alloc_bytes data.r_set.size cfg.sizeof_r_entry_t) = 0
    · simp [hp]
    · simp [hp, malloc_block]
  · by_cases hp : libc.realloc data.r_set.entries.addr
        (alloc_bytes (wrap_int (data.r_set.size * 2)) cfg.sizeof_r_entry_t) = 0
    · simp [hext, hp]
    · simp [hext, hp, realloc_block]

theorem ws_call_shape (cfg : Config) (libc : libc_t) (tx : mtm_tx_t) (data : mode_data_t)
    (extend : Int) :
    (extend ≠ 0 →
        (libc.realloc data.w_set.entries.addr
            (alloc_bytes (wrap_int (data.w_set.size * 2)) cfg.sizeof_w_entry_t) = 0 →
          mtm_allocate_ws_entries cfg libc tx data extend = Outcome.exited 1) ∧
        (libc.realloc data.w_set.entries.addr
            (alloc_bytes (wrap_int (data.w_set.size * 2)) cfg.sizeof_w_entry_t) ≠ 0 →
          mtm_allocate_ws_entries cfg libc tx data extend
            = finish_ws cfg tx tx data data.w_set.size
              { data.w_set with
                size := wrap_int (data.w_set.size * 2)
                entries := realloc_block data.w_set.entries
                  (libc.realloc data.w_set.entries.addr
                    (alloc_bytes (wrap_int (data.w_set.size * 2)) cfg.sizeof_w_entry_t))
                  (alloc_bytes (wrap_int (data.w_set.size * 2)) cfg.sizeof_w_entry_t)
                  cfg.sizeof_w_entry_t libc.fresh_w })) ∧
      (extend = 0 → cfg.CM = cm_t.CM_PRIORITY →
        ((libc.posix_memalign cfg.ALIGNMENT
            (alloc_bytes data.w_set.size cfg.sizeof_w_entry_t)).1 ≠ 0 →
          mtm_allocate_ws_entries cfg libc tx data extend = Outcome.exited 1) ∧
        ((libc.posix_memalign cfg.ALIGNMENT
            (alloc_bytes data.w_set.size cfg.sizeof_w_entry_t)).1 = 0 →
          mtm_allocate_ws_entries cfg libc tx data extend
            = finish_ws cfg tx tx data 0
              { data.w_set with
                entries := malloc_block
                  (libc.posix_memalign cfg.ALIGNMENT
                    (alloc_bytes data.w_set.size cfg.sizeof_w_entry_t)).2
                  (alloc_bytes data.w_set.size cfg.sizeof_w_entry_t) libc.fresh_w })) ∧
      (extend = 0 → cfg.CM ≠ cm_t.CM_PRIORITY →
        (libc.malloc (alloc_bytes tx.w_set.size cfg.sizeof_w_entry_t) = 0 →
          mtm_allocate_ws_entries cfg libc tx data extend = Outcome.exited 1) ∧
        (libc.malloc (alloc_bytes tx.w_set.size cfg.sizeof_w_entry_t) ≠ 0 →
          mtm_allocate_ws_entries cfg libc tx data extend
            = finish_ws cfg tx
              { tx with
                w_set :=
                  { tx.w_set with
                    entries := malloc_block
                      (libc.malloc (alloc_bytes tx.w_set.size cfg.sizeof_w_entry_t))
                      (alloc_bytes tx.w_set.size cfg.sizeof_w_entry_t) libc.fresh_w } }
              data 0 data.w_set)) := by
  refine ⟨fun hext => ⟨fun hp => ?_, fun hp => ?_⟩, fun hext hcm => ⟨fun hp => ?_, fun hp => ?_⟩,
    fun hext hcm => ?_⟩
  · unfold mtm_allocate_ws_entries
    simp only [ne_eq, hext, not_false_eq_true, if_true]
    rw [if_pos hp]
  · unfold mtm_allocate_ws_entries
    simp only [ne_eq, hext, not_false_eq_true, if_true]
    rw [if_neg hp]
  · subst hext
    unfold mtm_allocate_ws_entries
    simp only [ne_eq, not_true_eq_false, if_false, hcm]
    rw [if_pos hp]
  · subst hext
    unfold mtm_allocate_ws_entries
    simp only [ne_eq, not_true_eq_false, if_false, hcm]
    rw [if_neg (fun h => h hp)]
  · subst hext
    constructor
    · intro hp
      unfold mtm_allocate_ws_entries
      cases hc : cfg.CM with
      | CM_PRIORITY => exact absurd hc hcm
      | CM_BACKOFF => simp only [ne_eq, not_true_eq_false, if_false, hp, if_true]
      | CM_OTHER => simp only [ne_eq, not_true_eq_false, if_false, hp, if_true]
    · intro hp
      unfold mtm_allocate_ws_entries
      cases hc : cfg.CM with
      | CM_PRIORITY => exact absurd hc hcm
      | CM_BACKOFF => simp only [ne_eq, not_true_eq_false, if_false, hp]
      | CM_OTHER => simp only [ne_eq, not_true_eq_false, if_false, hp]

/-- On every path `mtm_allocate_ws_entries` ends in `exit(1)` exactly when the
allocation it requests fails (`NULL` from `realloc` or `malloc`, a non-zero
code from `posix_memalign`).  When it returns, the storage of `data->w_set`
is the answer of `realloc` (not `NULL`) with `extend` true, the pointer stored
by `posix_memalign` under `CM_PRIORITY`, and under any other policy the
pointer `data->w_set.entries` held before the call, the new block having gone
to `tx->w_set`.  It ends in a store outside its storage only in the field
initialisation, that is with `READ_LOCKED_DATA` or `CONFLICT_TRACKING`. -/
theorem ws_allocate_exits_iff_allocation_fails (cfg : Config) (libc : libc_t) (tx : mtm_tx_t)
    (data : mode_data_t) (extend : Int) :
    (mtm_allocate_ws_entries cfg libc tx data extend = Outcome.exited 1 ↔
        (if extend ≠ 0 then
            libc.realloc data.w_set.entries.addr
              (alloc_bytes (wrap_int (data.w_set.size * 2)) cfg.sizeof_w_entry_t) = 0
          else if cfg.CM = cm_t.CM_PRIORITY then
            (libc.posix_memalign cfg.ALIGNMENT
              (alloc_bytes data.w_set.size cfg.sizeof_w_entry_t)).1 ≠ 0
          else libc.malloc (alloc_bytes tx.w_set.size cfg.sizeof_w_entry_t) = 0)) ∧
      (∀ tx' data', mtm_allocate_ws_entries cfg libc tx data extend
            = Outcome.returned (tx', data') →
          (extend ≠ 0 → data'.w_set.entries.addr ≠ 0) ∧
          (extend = 0 → cfg.CM = cm_t.CM_PRIORITY →
            data'.w_set.entries.addr = (libc.posix_memalign cfg.ALIGNMENT
              (alloc_bytes data.w_set.size cfg.sizeof_w_entry_t)).2) ∧
          (extend = 0 → cfg.CM ≠ cm_t.CM_PRIORITY →
            data'.w_set.entries.addr = data.w_set.entries.addr ∧
              tx'.w_set.entries.addr ≠ 0)) ∧
      (mtm_allocate_ws_entries cfg libc tx data extend = Outcome.crashed →
        cfg.TRACKING = true) := by
  obtain ⟨hE, hP, hO⟩ := ws_call_shape cfg libc tx data extend
  refine ⟨?_, ?_, ?_⟩
  · by_cases hext : extend = 0
    · rw [if_neg (fun h => h hext)]
      by_cases hcm : cfg.CM = cm_t.CM_PRIORITY
      · rw [if_pos hcm]
        by_cases hp : (libc.posix_memalign cfg.ALIGNMENT
            (alloc_bytes data.w_set.size cfg.sizeof_w_entry_t)).1 = 0
        · rw [(hP hext hcm).2 hp]
          exact ⟨fun h => absurd h (finish_ws_not_exited _ _ _ _ _ _ _), fun h => absurd hp h⟩
        · exact ⟨fun _ => hp, fun _ => (hP hext hcm).1 hp⟩
      · rw [if_neg hcm]
        by_cases hp : libc.malloc (alloc_bytes tx.w_set.size cfg.sizeof_w_entry_t) = 0
        · exact ⟨fun _ => hp, fun _ => (hO hext hcm).1 hp⟩
        · rw [(hO hext hcm).2 hp]
          exact ⟨fun h => absurd h (finish_ws_not_exited _ _ _ _ _ _ _), fun h => absurd h hp⟩
    · rw [if_pos hext]
      by_cases hp : libc.realloc data.w_set.entries.addr
          (alloc_bytes (wrap_int (data.w_set.size * 2)) cfg.sizeof_w_entry_t) = 0
      · exact ⟨fun _ => hp, fun _ => (hE hext).1 hp⟩
      · rw [(hE hext).2 hp]
        exact ⟨fun h => absurd h (finish_ws_not_exited _ _ _ _ _ _ _), fun h => absurd h hp⟩
  · intro tx' data' h
    refine ⟨fun hext => ?_, fun hext hcm => ?_, fun hext hcm => ?_⟩
    · obtain ⟨hg, _, hinit⟩ := ws_extend_returned cfg libc tx tx' data data' extend hext h
      rw [(init_fields_some cfg tx _ _ _ hinit).2.2.1]
      exact hg
    · subst hext
      obtain ⟨w, _, _, hinit, _, _, hprio, _⟩ := ws_fresh_returned cfg libc tx tx' data data' h
      rw [(init_fields_some cfg tx _ _ _ hinit).2.2.1, hprio hcm]
      rfl
    · by_cases hp : libc.malloc (alloc_bytes tx.w_set.size cfg.sizeof_w_entry_t) = 0
      · rw [(hO hext hcm).1 hp] at h
        cases h
      · rw [(hO hext hcm).2 hp] at h
        obtain ⟨w', hw', hr⟩ := finish_ws_returned _ _ _ _ _ _ _ h
        cases hr
        exact ⟨(init_fields_some cfg tx _ _ _ hw').2.2.1, hp⟩
  · intro h
    by_contra ht
    have hnone : ∀ (tx_out : mtm_tx_t) (first : Int) (w : w_set_t),
        finish_ws cfg tx tx_out data first w ≠ Outcome.crashed := by
      intro tx_out first w hc
      obtain ⟨w', hw'⟩ := init_fields_returns cfg tx first w
        (Or.inl (by cases hb : cfg.TRACKING <;> simp_all))
      rw [finish_ws_of_some _ _ _ _ _ _ _ hw'] at hc
      cases hc
    by_cases hext : extend = 0
    · by_cases hcm : cfg.CM = cm_t.CM_PRIORITY
      · by_cases hp : (libc.posix_memalign cfg.ALIGNMENT
            (alloc_bytes data.w_set.size cfg.sizeof_w_entry_t)).1 = 0
        · rw [(hP hext hcm).2 hp] at h
          exact hnone _ _ _ h
        · rw [(hP hext hcm).1 hp] at h
          cases h
      · by_cases hp : libc.malloc (alloc_bytes tx.w_set.size cfg.sizeof_w_entry_t) = 0
        · rw [(hO hext hcm).1 hp] at h
          cases h
        · rw [(hO hext hcm).2 hp] at h
          exact hnone _ _ _ h
    · by_cases hp : libc.realloc data.w_set.entries.addr
          (alloc_bytes (wrap_int (data.w_set.size * 2)) cfg.sizeof_w_entry_t) = 0
      · rw [(hE hext).1 hp] at h
        cases h
      · rw [(hE hext).2 hp] at h
        exact hnone _ _ _ h

/-- C12, the code at the failing input: in a build with a contention policy
other than `CM_PRIORITY` and without conflict tracking,
`mtm_allocate_ws_entries(tx, data, 0)` on a write set whose `entries` is
`NULL`, with `malloc` succeeding (65536), returns to the caller with
`data->w_set.entries` still `NULL`.  With conflict tracking the same call
does not return either way: the initialisation loop stores through the
`NULL` pointer.  With `malloc` failing the call ends in `exit(1)`. -/
theorem ws_allocate_returns_with_null_storage :
    libc_grant.malloc
        (alloc_bytes tx_unallocated.w_set.size
          (spec_config design_t.WRITE_BACK cm_t.CM_BACKOFF false).sizeof_w_entry_t) = 65536 ∧
      (returned_value
        (mtm_allocate_ws_entries (spec_config design_t.WRITE_BACK cm_t.CM_BACKOFF false)
          libc_grant tx_unallocated data_unallocated 0)).map
        (fun r => (r.2.w_set.entries.addr, r.2.w_set.entries.bytes, r.2.w_set.size))
        = some (0, 0, 8) ∧
      mtm_allocate_ws_entries (spec_config design_t.WRITE_BACK cm_t.CM_BACKOFF true)
          libc_grant tx_unallocated data_unallocated 0 = Outcome.crashed ∧
      mtm_allocate_ws_entries (spec_config design_t.WRITE_BACK cm_t.CM_BACKOFF false)
          libc_refuse tx_unallocated data_unallocated 0 = Outcome.exited 1 := by
  refine ⟨by decide, by decide, ?_, ?_⟩
  · rfl
  · rfl

/-! ## Absence of side effects -/

theorem has_read_loop_st_eq (lock : Nat) (n r : Nat) (s : Store) :
    mtm_has_read_loop_st lock n r s
      = (mtm_has_read_loop s.modedata.r_set.entries.cells lock n r, s) := by
  induction n generalizing r with
  | zero => rfl
  | succ n ih =>
    simp only [mtm_has_read_loop_st, mtm_has_read_loop]
    split_ifs
    · rfl
    · exact ih (r + 1)

theorem validate_loop_st_eq (cfg : Config) (n r : Nat) (s : Store) :
    mtm_validate_loop_st cfg n r s
      = (mtm_validate_loop cfg s.tx s.modedata s.mem n r, s) := by
  induction n generalizing r with
  | zero => rfl
  | succ n ih =>
    simp only [mtm_validate_loop_st, mtm_validate_loop]
    split_ifs
    · rfl
    · exact ih (r + 1)
    · rfl
    · exact ih (r + 1)

theorem call_again_of_frame {α : Type} (f : Store → Outcome (α × Store)) (s : Store) (a : α)
    (h : f s = Outcome.returned (a, s)) (n : Nat) :
    call_again f n s = Outcome.returned (a, s) := by
  induction n with
  | zero => exact h
  | succ n ih =>
    simp only [call_again, h]
    exact ih

/-- C13: `mtm_has_read` and `mtm_validate` have no side effects.  For an ACTIVE
transaction each call returns with the store it was given (transaction
descriptor, read set, write set and every lock word unchanged), its result is
that of the function of the store alone, and any number of successive calls
against the same lock table return the same result. -/
theorem queries_leave_store_unchanged (cfg : Config) (s : Store) (lock : Nat)
    (hactive : s.tx.status = tx_status_t.TX_ACTIVE) :
    (∃ r, mtm_has_read s.tx s.modedata lock = Outcome.returned r ∧
        mtm_has_read_st s lock = Outcome.returned (r, s) ∧
        ∀ n, call_again (fun t => mtm_has_read_st t lock) n s = Outcome.returned (r, s)) ∧
      (∃ v, mtm_validate cfg s.tx s.modedata s.mem = Outcome.returned v ∧
        mtm_validate_st cfg s = Outcome.returned (v, s) ∧
        ∀ n, call_again (mtm_validate_st cfg) n s = Outcome.returned (v, s)) := by
  have h1 : mtm_has_read_st s lock = Outcome.returned
      (mtm_has_read_loop s.modedata.r_set.entries.cells lock
        s.modedata.r_set.nb_entries.toNat 0, s) := by
    unfold mtm_has_read_st
    rw [if_pos hactive, has_read_loop_st_eq]
  have h2 : mtm_validate_st cfg s = Outcome.returned
      (mtm_validate_loop cfg s.tx s.modedata s.mem s.modedata.r_set.nb_entries.toNat 0, s) := by
    unfold mtm_validate_st
    rw [if_pos hactive, validate_loop_st_eq]
  constructor
  · refine ⟨_, ?_, h1, fun n => call_again_of_frame _ s _ h1 n⟩
    unfold mtm_has_read
    rw [if_pos hactive]
  · refine ⟨_, ?_, h2, fun n => call_again_of_frame _ s _ h2 n⟩
    unfold mtm_validate
    rw [if_pos hactive]

/-- C13, exercised on Scenario A: four successive validations of T2 all return
0 and four successive lookups of stripe 64 all return position 1, each leaving
the store as it was. -/
theorem queries_leave_store_unchanged_witness :
    store_demo.tx.status = tx_status_t.TX_ACTIVE ∧
      (returned_value
        (call_again (mtm_validate_st (spec_config design_t.WRITE_BACK cm_t.CM_OTHER false)) 3
          store_demo)).map Prod.fst = some 0 ∧
      (returned_value
        (call_again (fun t => mtm_has_read_st t 64) 3 store_demo)).map Prod.fst
        = some (some 1) ∧
      ((∃ r, mtm_has_read store_demo.tx store_demo.modedata 64 = Outcome.returned r ∧
          mtm_has_read_st store_demo 64 = Outcome.returned (r, store_demo) ∧
          ∀ n, call_again (fun t => mtm_has_read_st t 64) n store_demo
            = Outcome.returned (r, store_demo)) ∧
        (∃ v, mtm_validate (spec_config design_t.WRITE_BACK cm_t.CM_OTHER false) store_demo.tx
              store_demo.modedata store_demo.mem = Outcome.returned v ∧
          mtm_validate_st (spec_config design_t.WRITE_BACK cm_t.CM_OTHER false) store_demo
            = Outcome.returned (v, store_demo) ∧
          ∀ n, call_again (mtm_validate_st (spec_config design_t.WRITE_BACK cm_t.CM_OTHER false))
              n store_demo = Outcome.returned (v, store_demo))) :=
  ⟨rfl, by decide, by decide,
    queries_leave_store_unchanged (spec_config design_t.WRITE_BACK cm_t.CM_OTHER false)
      store_demo 64 rfl⟩

/-! ## Short-circuit evaluation -/

theorem validate_loop_loads_fst (cfg : Config) (tx : mtm_tx_t) (modedata : mode_data_t)
    (mem : Nat → mtm_word_t) (n r : Nat) :
    (mtm_validate_loop_loads cfg tx modedata mem n r).1
      = mtm_validate_loop cfg tx modedata mem n r := by
  induction n generalizing r with
  | zero => rfl
  | succ n ih =>
    simp only [mtm_validate_loop_loads, mtm_validate_loop]
    split_ifs
    · rfl
    · exact ih (r + 1)
    · rfl
    · exact ih (r + 1)

theorem validate_step_of_valid (cfg : Config) (tx : mtm_tx_t) (modedata : mode_data_t)
    (mem : Nat → mtm_word_t) (n r : Nat)
    (h : entry_validates cfg tx modedata mem (modedata.r_set.entries.cells r)) :
    mtm_validate_loop_loads cfg tx modedata mem (n + 1) r
      = ((mtm_validate_loop_loads cfg tx modedata mem n (r + 1)).1,
          (modedata.r_set.entries.cells r).lock ::
            (mtm_validate_loop_loads cfg tx modedata mem n (r + 1)).2) := by
  simp only [mtm_validate_loop_loads]
  rcases h with ⟨ho, hs⟩ | ⟨ho, hv⟩
  · have hl : ¬ locked_by_other cfg tx modedata
        (mem (modedata.r_set.entries.cells r).lock) = true := by
      rw [locked_by_other_iff]
      exact fun hc => hc hs
    rw [if_pos ho, if_neg hl]
  · have ho' : ¬ cfg.LOCK_GET_OWNED (mem (modedata.r_set.entries.cells r).lock) ≠ 0 :=
      fun hc => hc ho
    have hv' : ¬ cfg.LOCK_GET_TIMESTAMP (mem (modedata.r_set.entries.cells r).lock)
        ≠ (modedata.r_set.entries.cells r).version := fun hc => hc hv
    rw [if_neg ho', if_neg hv']

theorem validate_step_of_invalid (cfg : Config) (tx : mtm_tx_t) (modedata : mode_data_t)
    (mem : Nat → mtm_word_t) (n r : Nat)
    (h : ¬ entry_validates cfg tx modedata mem (modedata.r_set.entries.cells r)) :
    mtm_validate_loop_loads cfg tx modedata mem (n + 1) r
      = (0, [(modedata.r_set.entries.cells r).lock]) := by
  simp only [mtm_validate_loop_loads]
  by_cases ho : cfg.LOCK_GET_OWNED (mem (modedata.r_set.entries.cells r).lock) = 0
  · have ho' : ¬ cfg.LOCK_GET_OWNED (mem (modedata.r_set.entries.cells r).lock) ≠ 0 :=
      fun hc => hc ho
    have hv : cfg.LOCK_GET_TIMESTAMP (mem (modedata.r_set.entries.cells r).lock)
        ≠ (modedata.r_set.entries.cells r).version := fun hc => h (Or.inr ⟨ho, hc⟩)
    rw [if_neg ho', if_pos hv]
  · have hl : locked_by_other cfg tx modedata
        (mem (modedata.r_set.entries.cells r).lock) = true := by
      rw [locked_by_other_iff]
      exact fun hc => h (Or.inl ⟨ho, hc⟩)
    rw [if_pos ho, if_pos hl]

theorem validate_loop_loads_first_failure (cfg : Config) (tx : mtm_tx_t)
    (modedata : mode_data_t) (mem : Nat → mtm_word_t) (k : Nat) :
    ∀ (n r : Nat), k < n →
      ¬ entry_validates cfg tx modedata mem (modedata.r_set.entries.cells (r + k)) →
      (∀ j, j < k → entry_validates cfg tx modedata mem (modedata.r_set.entries.cells (r + j))) →
      mtm_validate_loop_loads cfg tx modedata mem n r
        = (0, (List.range' r (k + 1)).map (fun i => (modedata.r_set.entries.cells i).lock)) := by
  induction k with
  | zero =>
    intro n r hn hfail _
    obtain ⟨m, rfl⟩ : ∃ m, n = m + 1 := ⟨n - 1, by omega⟩
    rw [validate_step_of_invalid cfg tx modedata mem m r (by simpa using hfail)]
    rfl
  | succ k ih =>
    intro n r hn hfail hvalid
    obtain ⟨m, rfl⟩ : ∃ m, n = m + 1 := ⟨n - 1, by omega⟩
    rw [validate_step_of_valid cfg tx modedata mem m r (by simpa using hvalid 0 (Nat.succ_pos k))]
    rw [ih m (r + 1) (by omega)
      (by rwa [show r + 1 + k = r + (k + 1) by omega])
      (fun j hj => by
        have := hvalid (j + 1) (by omega)
        rwa [show r + (j + 1) = r + 1 + j by omega] at this)]
    rw [List.range'_succ]
    rfl

theorem entry_validates_congr (cfg : Config) (tx : mtm_tx_t) (modedata modedata2 : mode_data_t)
    (mem mem2 : Nat → mtm_word_t) (e : r_entry_t)
    (hw : modedata2.w_set = modedata.w_set) (hm : mem2 e.lock = mem e.lock) :
    entry_validates cfg tx modedata2 mem2 e ↔ entry_validates cfg tx modedata mem e := by
  unfold entry_validates refers_to_self
  rw [hw, hm]

/-- C15: `mtm_validate` short-circuits.  If `k` is the least index below
`nb_entries` whose entry fails to validate, the function returns 0 after
loading exactly the lock words of entries `0..k`, in that order, and none for
a later entry; and its result and its loads are the same for any read set and
lock table that agree with the given ones on the entries `0..k` and on their
lock words, whatever the later entries and the other lock words are. -/
theorem mtm_validate_short_circuits (cfg : Config) (tx : mtm_tx_t) (modedata : mode_data_t)
    (mem : Nat → mtm_word_t) (k : Nat)
    (hactive : tx.status = tx_status_t.TX_ACTIVE)
    (hk : (k : Int) < modedata.r_set.nb_entries)
    (hfail : ¬ entry_validates cfg tx modedata mem (modedata.r_set.entries.cells k))
    (hleast : ∀ j, j < k →
      entry_validates cfg tx modedata mem (modedata.r_set.entries.cells j)) :
    mtm_validate cfg tx modedata mem = Outcome.returned 0 ∧
      mtm_validate_loads cfg tx modedata mem = Outcome.returned
        (0, (List.range (k + 1)).map (fun i => (modedata.r_set.entries.cells i).lock)) ∧
      ∀ (modedata2 : mode_data_t) (mem2 : Nat → mtm_word_t),
        modedata2.w_set = modedata.w_set →
        (k : Int) < modedata2.r_set.nb_entries →
        (∀ i, i ≤ k → modedata2.r_set.entries.cells i = modedata.r_set.entries.cells i) →
        (∀ i, i ≤ k → mem2 (modedata.r_set.entries.cells i).lock
          = mem (modedata.r_set.entries.cells i).lock) →
        mtm_validate cfg tx modedata2 mem2 = Outcome.returned 0 ∧
          mtm_validate_loads cfg tx modedata2 mem2 = mtm_validate_loads cfg tx modedata mem := by
  have main : ∀ (md : mode_data_t) (m : Nat → mtm_word_t),
      (k : Int) < md.r_set.nb_entries →
      ¬ entry_validates cfg tx md m (md.r_set.entries.cells k) →
      (∀ j, j < k → entry_validates cfg tx md m (md.r_set.entries.cells j)) →
      mtm_validate cfg tx md m = Outcome.returned 0 ∧
        mtm_validate_loads cfg tx md m = Outcome.returned
          (0, (List.range (k + 1)).map (fun i => (md.r_set.entries.cells i).lock)) := by
    intro md m hk' hf hl
    have hlt : k < md.r_set.nb_entries.toNat := by omega
    have hloads := validate_loop_loads_first_failure cfg tx md m k md.r_set.nb_entries.toNat 0
      hlt (by simpa using hf) (by simpa using hl)
    rw [← List.range_eq_range'] at hloads
    have hres := validate_loop_loads_fst cfg tx md m md.r_set.nb_entries.toNat 0
    rw [hloads] at hres
    unfold mtm_validate mtm_validate_loads
    rw [if_pos hactive, if_pos hactive, hloads, ← hres]
    exact ⟨rfl, rfl⟩
  obtain ⟨h1, h2⟩ := main modedata mem hk hfail hleast
  refine ⟨h1, h2, fun modedata2 mem2 hw hk2 hcells hmem => ?_⟩
  have hcongr : ∀ i, i ≤ k →
      (entry_validates cfg tx modedata2 mem2 (modedata2.r_set.entries.cells i) ↔
        entry_validates cfg tx modedata mem (modedata.r_set.entries.cells i)) := by
    intro i hi
    rw [hcells i hi]
    exact entry_validates_congr cfg tx modedata modedata2 mem mem2 _ hw (hmem i hi)
  obtain ⟨h3, h4⟩ := main modedata2 mem2 hk2
    (fun hc => hfail ((hcongr k (le_refl k)).1 hc))
    (fun j hj => (hcongr j (le_of_lt hj)).2 (hleast j hj))
  refine ⟨h3, ?_⟩
  rw [h4, h2]
  congr 2
  apply List.map_congr_left
  intro i hi
  rw [List.mem_range] at hi
  rw [hcells i (by omega)]

theorem data_stale_first_valid :
    ∀ j, j < 1 →
      entry_validates (spec_config design_t.WRITE_BACK cm_t.CM_OTHER false) tx_demo data_stale
        mem_demo (data_stale.r_set.entries.cells j) := by
  intro j hj
  interval_cases j
  exact Or.inr ⟨by decide, by decide⟩

theorem data_stale_second_invalid :
    ¬ entry_validates (spec_config design_t.WRITE_BACK cm_t.CM_OTHER false) tx_demo data_stale
      mem_demo (data_stale.r_set.entries.cells 1) := by
  rintro (⟨ho, _⟩ | ⟨_, hv⟩)
  · exact ho (by decide)
  · exact absurd hv (by decide)

/-- C15, exercised on Scenario A: the second read of T2 is the first to fail, so
validation returns 0 after loading the lock words of stripes 96 and 64 only;
appending a read of stripe 80 and changing the words of stripes 72 and 80
changes neither the result nor the loads. -/
theorem mtm_validate_short_circuits_witness :
    tx_demo.status = tx_status_t.TX_ACTIVE ∧
      (1 : Int) < data_stale.r_set.nb_entries ∧
      mtm_validate_loads (spec_config design_t.WRITE_BACK cm_t.CM_OTHER false) tx_demo data_stale
        mem_demo = Outcome.returned (0, [96, 64]) ∧
      mtm_validate_loads (spec_config design_t.WRITE_BACK cm_t.CM_OTHER false) tx_demo
        data_stale_longer mem_demo_later = Outcome.returned (0, [96, 64]) ∧
      (mtm_validate (spec_config design_t.WRITE_BACK cm_t.CM_OTHER false) tx_demo
          data_stale_longer mem_demo_later = Outcome.returned 0 ∧
        mtm_validate_loads (spec_config design_t.WRITE_BACK cm_t.CM_OTHER false) tx_demo
          data_stale_longer mem_demo_later
          = mtm_validate_loads (spec_config design_t.WRITE_BACK cm_t.CM_OTHER false) tx_demo
              data_stale mem_demo) :=
  ⟨rfl, by decide, by decide, by decide,
    (mtm_validate_short_circuits (spec_config design_t.WRITE_BACK cm_t.CM_OTHER false) tx_demo
      data_stale mem_demo 1 rfl (by decide) data_stale_second_invalid
      data_stale_first_valid).2.2 data_stale_longer mem_demo_later rfl (by decide)
      (fun i hi => by interval_cases i <;> rfl)
      (fun i hi => by interval_cases i <;> rfl)⟩

/-! ## Behaviour of the write-back ownership test and of duplicate reads -/

theorem has_read_unfold_active (tx : mtm_tx_t) (modedata : mode_data_t) (lock : Nat)
    (hactive : tx.status = tx_status_t.TX_ACTIVE) :
    mtm_has_read tx modedata lock = Outcome.returned
      (mtm_has_read_loop modedata.r_set.entries.cells lock modedata.r_set.nb_entries.toNat 0) := by
  unfold mtm_has_read
  rw [if_pos hactive]

theorem validate_zero_of_invalid_entry (cfg : Config) (tx : mtm_tx_t) (modedata : mode_data_t)
    (mem : Nat → mtm_word_t) (i : Nat)
    (hactive : tx.status = tx_status_t.TX_ACTIVE)
    (hi : (i : Int) < modedata.r_set.nb_entries)
    (hbad : ¬ entry_validates cfg tx modedata mem (modedata.r_set.entries.cells i)) :
    mtm_validate cfg tx modedata mem = Outcome.returned 0 := by
  have key := validate_loop_eq_one_iff cfg tx modedata mem modedata.r_set.nb_entries.toNat 0
  simp only [Nat.zero_add, lt_toNat_iff] at key
  simp only [mtm_validate, hactive, if_true, Outcome.returned.injEq]
  rcases validate_loop_zero_or_one cfg tx modedata mem modedata.r_set.nb_entries.toNat 0 with h | h
  · exact h
  · exact absurd (key.1 h i hi) hbad

/-- C16: in the write-back variant, for an ACTIVE transaction, a read entry
below `nb_entries` whose lock is owned with an owner reference outside
`[w_set.entries, w_set.entries + w_set.nb_entries)` makes `mtm_validate`
return 0.  In particular it returns 0 when the write set is empty
(`w_set.nb_entries = 0`), and when the owner reference is the address of a
slot of the transaction's own storage at an index `idx ≥ w_set.nb_entries`. -/
theorem write_back_rejects_owner_outside_in_use (cfg : Config) (tx : mtm_tx_t)
    (modedata : mode_data_t) (mem : Nat → mtm_word_t) (i : Nat)
    (hdesign : cfg.DESIGN = design_t.WRITE_BACK)
    (hactive : tx.status = tx_status_t.TX_ACTIVE)
    (hi : (i : Int) < modedata.r_set.nb_entries)
    (howned : cfg.LOCK_GET_OWNED (mem (modedata.r_set.entries.cells i).lock) ≠ 0) :
    (¬ (modedata.w_set.entries.addr
            ≤ cfg.LOCK_GET_ADDR (mem (modedata.r_set.entries.cells i).lock) ∧
          (cfg.LOCK_GET_ADDR (mem (modedata.r_set.entries.cells i).lock) : Int)
            < (modedata.w_set.entries.addr : Int)
              + modedata.w_set.nb_entries * (cfg.sizeof_w_entry_t : Int)) →
        mtm_validate cfg tx modedata mem = Outcome.returned 0) ∧
      (modedata.w_set.nb_entries = 0 →
        mtm_validate cfg tx modedata mem = Outcome.returned 0) ∧
      (∀ idx : Nat, modedata.w_set.nb_entries ≤ (idx : Int) →
        cfg.LOCK_GET_ADDR (mem (modedata.r_set.entries.cells i).lock)
          = modedata.w_set.entries.addr + idx * cfg.sizeof_w_entry_t →
        mtm_validate cfg tx modedata mem = Outcome.returned 0) := by
  have main : ¬ (modedata.w_set.entries.addr
            ≤ cfg.LOCK_GET_ADDR (mem (modedata.r_set.entries.cells i).lock) ∧
          (cfg.LOCK_GET_ADDR (mem (modedata.r_set.entries.cells i).lock) : Int)
            < (modedata.w_set.entries.addr : Int)
              + modedata.w_set.nb_entries * (cfg.sizeof_w_entry_t : Int)) →
        mtm_validate cfg tx modedata mem = Outcome.returned 0 := by
    intro hout
    apply validate_zero_of_invalid_entry cfg tx modedata mem i hactive hi
    rintro (⟨_, hs⟩ | ⟨ho, _⟩)
    · unfold refers_to_self at hs
      rw [hdesign] at hs
      exact hout hs
    · exact howned ho
  refine ⟨main, fun hempty => main ?_, fun idx hidx haddr => main ?_⟩
  · rintro ⟨h1, h2⟩
    rw [hempty] at h2
    omega
  · rintro ⟨_, h2⟩
    rw [haddr] at h2
    have hmul : modedata.w_set.nb_entries * (cfg.sizeof_w_entry_t : Int)
        ≤ (idx : Int) * (cfg.sizeof_w_entry_t : Int) :=
      mul_le_mul_of_nonneg_right hidx (by omega)
    push_cast at h2
    omega

/-- C16, exercised: stripe 80 is owned with owner reference 20520.  A
transaction with an empty write set at 20480 fails validation, and so does
one with a single write entry in use, for which 20520 is the unused second
slot of its own storage. -/
theorem write_back_rejects_owner_outside_in_use_witness :
    (spec_config design_t.WRITE_BACK cm_t.CM_OTHER false).DESIGN = design_t.WRITE_BACK ∧
      tx_demo.status = tx_status_t.TX_ACTIVE ∧
      data_no_writes.w_set.nb_entries = 0 ∧
      mtm_validate (spec_config design_t.WRITE_BACK cm_t.CM_OTHER false) tx_demo data_no_writes
        mem_demo = Outcome.returned 0 ∧
      data_one_write.w_set.nb_entries ≤ ((1 : Nat) : Int) ∧
      (spec_config design_t.WRITE_BACK cm_t.CM_OTHER false).LOCK_GET_ADDR
          (mem_demo (data_one_write.r_set.entries.cells 1).lock)
        = data_one_write.w_set.entries.addr
          + 1 * (spec_config design_t.WRITE_BACK cm_t.CM_OTHER false).sizeof_w_entry_t ∧
      mtm_validate (spec_config design_t.WRITE_BACK cm_t.CM_OTHER false) tx_demo data_one_write
        mem_demo = Outcome.returned 0 :=
  ⟨rfl, rfl, by decide,
    (write_back_rejects_owner_outside_in_use
      (spec_config design_t.WRITE_BACK cm_t.CM_OTHER false) tx_demo data_no_writes mem_demo 1
      rfl rfl (by decide) (by decide)).2.1 (by decide),
    by decide, by decide,
    (write_back_rejects_owner_outside_in_use
      (spec_config design_t.WRITE_BACK cm_t.CM_OTHER false) tx_demo data_one_write mem_demo 1
      rfl rfl (by decide) (by decide)).2.2 1 (by decide) (by decide)⟩

/-- C17: the read set is not deduplicated.  For an ACTIVE transaction, if two
entries at positions `i < j` below `nb_entries` are for the same lock with
different recorded versions, and that lock is not currently owned by the
transaction itself, `mtm_validate` returns 0 whatever the lock word is; and
`mtm_has_read` for that lock returns the first entry recorded for it, at a
position no later than `i`, which is `i`, the earlier of the two, when
no entry before `i` is for that lock. -/
theorem duplicate_reads_fail_validation (cfg : Config) (tx : mtm_tx_t)
    (modedata : mode_data_t) (mem : Nat → mtm_word_t) (i j : Nat)
    (hactive : tx.status = tx_status_t.TX_ACTIVE)
    (hij : i < j) (hj : (j : Int) < modedata.r_set.nb_entries)
    (hlock : (modedata.r_set.entries.cells i).lock = (modedata.r_set.entries.cells j).lock)
    (hversion : (modedata.r_set.entries.cells i).version
      ≠ (modedata.r_set.entries.cells j).version)
    (hnotself : ¬ (cfg.LOCK_GET_OWNED (mem (modedata.r_set.entries.cells i).lock) ≠ 0 ∧
      refers_to_self cfg tx modedata
        (cfg.LOCK_GET_ADDR (mem (modedata.r_set.entries.cells i).lock)))) :
    mtm_validate cfg tx modedata mem = Outcome.returned 0 ∧
      (∃ m, m ≤ i ∧
        mtm_has_read tx modedata (modedata.r_set.entries.cells i).lock
          = Outcome.returned (some m) ∧
        (modedata.r_set.entries.cells m).lock = (modedata.r_set.entries.cells i).lock) ∧
      ((∀ m, m < i →
          (modedata.r_set.entries.cells m).lock ≠ (modedata.r_set.entries.cells i).lock) →
        mtm_has_read tx modedata (modedata.r_set.entries.cells i).lock
          = Outcome.returned (some i)) := by
  have hi : (i : Int) < modedata.r_set.nb_entries := by omega
  have hfirst := has_read_unfold_active tx modedata (modedata.r_set.entries.cells i).lock
    hactive
  refine ⟨?_, ?_, ?_⟩
  · by_cases hvi : entry_validates cfg tx modedata mem (modedata.r_set.entries.cells i)
    · apply validate_zero_of_invalid_entry cfg tx modedata mem j hactive hj
      rcases hvi with hs | ⟨ho, hts⟩
      · exact absurd hs hnotself
      · rintro (⟨ho', _⟩ | ⟨_, hts'⟩)
        · rw [← hlock] at ho'
          exact ho' ho
        · rw [← hlock, hts] at hts'
          exact hversion hts'
    · exact validate_zero_of_invalid_entry cfg tx modedata mem i hactive hi hvi
  · cases hres : mtm_has_read_loop modedata.r_set.entries.cells
        (modedata.r_set.entries.cells i).lock modedata.r_set.nb_entries.toNat 0 with
    | none =>
      have := (has_read_loop_eq_none_iff _ _ _ 0).1 hres i (by omega)
      rw [Nat.zero_add] at this
      exact absurd rfl this
    | some m =>
      obtain ⟨_, _, hm, hleast⟩ := (has_read_loop_eq_some_iff _ _ _ 0 m).1 hres
      have hmi : m ≤ i := by
        by_contra hc
        exact hleast i (Nat.zero_le _) (by omega) rfl
      refine ⟨m, hmi, ?_, hm⟩
      rw [hfirst, hres]
  · intro hnone
    rw [hfirst]
    congr 1
    rw [has_read_loop_eq_some_iff]
    exact ⟨Nat.zero_le _, by omega, rfl, fun m _ hm => hnone m hm⟩

/-- C17, exercised: stripe 64 was read at versions 5 and 6 (positions 1 and 2)
and is now unlocked at version 6; validation returns 0 although the later
entry is current, and the lookup of stripe 64 returns position 1. -/
theorem duplicate_reads_fail_validation_witness :
    tx_demo.status = tx_status_t.TX_ACTIVE ∧
      (data_twice.r_set.entries.cells 1).lock = 64 ∧
      (data_twice.r_set.entries.cells 2).lock = 64 ∧
      (spec_config design_t.WRITE_THROUGH cm_t.CM_OTHER false).LOCK_GET_TIMESTAMP (mem_demo 64)
        = (data_twice.r_set.entries.cells 2).version ∧
      mtm_validate (spec_config design_t.WRITE_THROUGH cm_t.CM_OTHER false) tx_demo data_twice
        mem_demo = Outcome.returned 0 ∧
      mtm_has_read tx_demo data_twice (data_twice.r_set.entries.cells 1).lock
        = Outcome.returned (some 1) :=
  have h := duplicate_reads_fail_validation
    (spec_config design_t.WRITE_THROUGH cm_t.CM_OTHER false) tx_demo data_twice mem_demo 1 2 rfl
    (by decide) (by decide) (by decide) (by decide) (fun hc => hc.1 (by decide))
  ⟨rfl, by decide, by decide, by decide, h.1,
    h.2.2 (fun m hm => by interval_cases m; decide)⟩

/-! ## Dependence on the entries only -/

theorem validate_loop_eq_one_iff_entries (cfg : Config) (tx : mtm_tx_t) (modedata : mode_data_t)
    (mem : Nat → mtm_word_t) :
    mtm_validate_loop cfg tx modedata mem modedata.r_set.nb_entries.toNat 0 = 1 ↔
      ∀ e ∈ read_entries modedata.r_set, entry_validates cfg tx modedata mem e := by
  rw [validate_loop_eq_one_iff]
  unfold read_entries
  simp only [Nat.zero_add, List.mem_map, List.mem_range, forall_exists_index, and_imp]
  constructor
  · intro h e i hi he
    rw [← he]
    exact h i hi
  · intro h i hi
    exact h _ i hi rfl

theorem entry_validates_of_w_set (cfg : Config) (tx : mtm_tx_t) (md1 md2 : mode_data_t)
    (mem : Nat → mtm_word_t) (e : r_entry_t) (hw : md2.w_set = md1.w_set) :
    entry_validates cfg tx md2 mem e ↔ entry_validates cfg tx md1 mem e :=
  entry_validates_congr cfg tx md1 md2 mem mem e hw rfl

/-- C18: for a fixed lock table and write set, the result of `mtm_validate`
depends only on the multiset of the first `nb_entries` read-set entries: it
is the same for two read sets whose entries are permutations of each other;
if it is 1 for a read set it is 1 for every read set whose entries are
obtained by removing entries from it; and it is 1 for the empty read set. -/
theorem mtm_validate_depends_on_entries_only (cfg : Config) (tx : mtm_tx_t)
    (md1 md2 : mode_data_t) (mem : Nat → mtm_word_t)
    (hactive : tx.status = tx_status_t.TX_ACTIVE) (hw : md2.w_set = md1.w_set) :
    ((read_entries md1.r_set).Perm (read_entries md2.r_set) →
        mtm_validate cfg tx md1 mem = mtm_validate cfg tx md2 mem) ∧
      ((read_entries md2.r_set).Sublist (read_entries md1.r_set) →
        mtm_validate cfg tx md1 mem = Outcome.returned 1 →
        mtm_validate cfg tx md2 mem = Outcome.returned 1) ∧
      (read_entries md2.r_set = [] → mtm_validate cfg tx md2 mem = Outcome.returned 1) := by
  have e1 := validate_loop_eq_one_iff_entries cfg tx md1 mem
  have e2 := validate_loop_eq_one_iff_entries cfg tx md2 mem
  simp only [mtm_validate, hactive, if_true, Outcome.returned.injEq]
  refine ⟨fun hperm => ?_, fun hsub h1 => ?_, fun hnil => ?_⟩
  · have hiff : mtm_validate_loop cfg tx md1 mem md1.r_set.nb_entries.toNat 0 = 1 ↔
        mtm_validate_loop cfg tx md2 mem md2.r_set.nb_entries.toNat 0 = 1 := by
      rw [e1, e2]
      constructor
      · intro h e he
        exact (entry_validates_of_w_set cfg tx md1 md2 mem e hw).2 (h e (hperm.mem_iff.2 he))
      · intro h e he
        exact (entry_validates_of_w_set cfg tx md1 md2 mem e hw).1 (h e (hperm.mem_iff.1 he))
    rcases validate_loop_zero_or_one cfg tx md1 mem md1.r_set.nb_entries.toNat 0 with h1 | h1 <;>
      rcases validate_loop_zero_or_one cfg tx md2 mem md2.r_set.nb_entries.toNat 0 with h2 | h2
    · rw [h1, h2]
    · rw [hiff.2 h2] at h1
      exact absurd h1 (by decide)
    · rw [hiff.1 h1] at h2
      exact absurd h2 (by decide)
    · rw [h1, h2]
  · rw [e2]
    intro e he
    exact (entry_validates_of_w_set cfg tx md1 md2 mem e hw).2 (e1.1 h1 e (hsub.subset he))
  · rw [e2, hnil]
    intro e he
    cases he

/-- C18, exercised: the two reads of `data_valid` validate in either order, and
so does the second one alone. -/
theorem mtm_validate_depends_on_entries_only_witness :
    tx_demo.status = tx_status_t.TX_ACTIVE ∧
      (read_entries data_valid.r_set).Perm (read_entries data_valid_swapped.r_set) ∧
      (read_entries data_valid_less.r_set).Sublist (read_entries data_valid.r_set) ∧
      mtm_validate (spec_config design_t.WRITE_THROUGH cm_t.CM_OTHER false) tx_demo data_valid
          mem_demo = Outcome.returned 1 ∧
      mtm_validate (spec_config design_t.WRITE_THROUGH cm_t.CM_OTHER false) tx_demo data_valid
          mem_demo
        = mtm_validate (spec_config design_t.WRITE_THROUGH cm_t.CM_OTHER false) tx_demo
            data_valid_swapped mem_demo ∧
      mtm_validate (spec_config design_t.WRITE_THROUGH cm_t.CM_OTHER false) tx_demo
          data_valid_less mem_demo = Outcome.returned 1 :=
  ⟨rfl, by decide, by decide, by decide,
    (mtm_validate_depends_on_entries_only
      (spec_config design_t.WRITE_THROUGH cm_t.CM_OTHER false) tx_demo data_valid
      data_valid_swapped mem_demo rfl rfl).1 (by decide),
    (mtm_validate_depends_on_entries_only
      (spec_config design_t.WRITE_THROUGH cm_t.CM_OTHER false) tx_demo data_valid
      data_valid_less mem_demo rfl rfl).2.1 (by decide) (by decide)⟩

/-! ## Range in which extending increases the capacity -/

theorem rs_extend_outcome (cfg : Config) (libc : libc_t) (tx : mtm_tx_t) (d : mode_data_t)
    (extend : Int) (hext : extend ≠ 0) :
    (∀ d', mtm_allocate_rs_entries cfg libc tx d extend = Outcome.returned d' →
        d'.r_set.size = wrap_int (d.r_set.size * 2)) ∧
      (libc.realloc d.r_set.entries.addr
          (alloc_bytes (wrap_int (d.r_set.size * 2)) cfg.sizeof_r_entry_t) ≠ 0 →
        ∃ d', mtm_allocate_rs_entries cfg libc tx d extend = Outcome.returned d') := by
  unfold mtm_allocate_rs_entries
  simp only [ne_eq, hext, not_false_eq_true, if_true]
  constructor
  · intro d' h
    split_ifs at h with hp
    cases h
    rfl
  · intro hp
    rw [if_neg hp]
    exact ⟨_, rfl⟩

theorem ws_extend_outcome (cfg : Config) (libc : libc_t) (tx : mtm_tx_t) (d : mode_data_t)
    (extend : Int) (hext : extend ≠ 0) :
    (∀ tx' d', mtm_allocate_ws_entries cfg libc tx d extend = Outcome.returned (tx', d') →
        d'.w_set.size = wrap_int (d.w_set.size * 2)) ∧
      (0 ≤ d.w_set.size → d.w_set.size ≤ 1073741823 →
        libc.realloc d.w_set.entries.addr
          (alloc_bytes (wrap_int (d.w_set.size * 2)) cfg.sizeof_w_entry_t) ≠ 0 →
        ∃ tx' d', mtm_allocate_ws_entries cfg libc tx d extend = Outcome.returned (tx', d')) := by
  constructor
  · intro tx' d' h
    obtain ⟨_, _, hinit⟩ := ws_extend_returned cfg libc tx tx' d d' extend hext h
    exact (init_fields_some cfg tx _ _ _ hinit).1
  · intro h0 h1 hp
    exact ws_extend_returns cfg libc tx d extend hext h0 h1 hp

theorem wrap_int_double_gt_iff (size : Int) (h0 : 0 ≤ size) (h1 : size ≤ INT_MAX) :
    size < wrap_int (size * 2) ↔ (0 < size ∧ size ≤ INT_MAX / 2) := by
  rw [int_max_half]
  unfold INT_MAX at h1
  unfold wrap_int
  omega

theorem extend_rs_n_of_zero (cfg : Config) (libc : libc_t) (tx : mtm_tx_t) (n : Nat) :
    ∀ d : mode_data_t, d.r_set.size = 0 →
      (∀ d', extend_rs_n cfg libc tx n d = Outcome.returned d' → d'.r_set.size = 0) ∧
        ((∀ p b, libc.realloc p b ≠ 0) →
          ∃ d', extend_rs_n cfg libc tx n d = Outcome.returned d') := by
  induction n with
  | zero =>
    intro d hd
    refine ⟨fun d' h => ?_, fun _ => ⟨d, rfl⟩⟩
    cases h
    exact hd
  | succ n ih =>
    intro d hd
    have hout := rs_extend_outcome cfg libc tx d 1 one_ne_zero
    have hw : wrap_int (d.r_set.size * 2) = 0 := by rw [hd]; decide
    constructor
    · intro d' h
      simp only [extend_rs_n] at h
      cases hc : mtm_allocate_rs_entries cfg libc tx d 1 with
      | returned d1 =>
        rw [hc] at h
        exact (ih d1 (by rw [hout.1 d1 hc, hw])).1 d' h
      | assert_failed => rw [hc] at h; cases h
      | exited c => rw [hc] at h; cases h
      | crashed => rw [hc] at h; cases h
    · intro hgrant
      obtain ⟨d1, hc⟩ := hout.2 (hgrant _ _)
      obtain ⟨d2, h2⟩ := (ih d1 (by rw [hout.1 d1 hc, hw])).2 hgrant
      refine ⟨d2, ?_⟩
      simp only [extend_rs_n, hc]
      exact h2

theorem extend_ws_n_of_zero (cfg : Config) (libc : libc_t) (n : Nat) :
    ∀ (tx : mtm_tx_t) (d : mode_data_t), d.w_set.size = 0 →
      (∀ tx' d', extend_ws_n cfg libc n tx d = Outcome.returned (tx', d') →
          d'.w_set.size = 0) ∧
        ((∀ p b, libc.realloc p b ≠ 0) →
          ∃ tx' d', extend_ws_n cfg libc n tx d = Outcome.returned (tx', d')) := by
  induction n with
  | zero =>
    intro tx d hd
    refine ⟨fun tx' d' h => ?_, fun _ => ⟨tx, d, rfl⟩⟩
    cases h
    exact hd
  | succ n ih =>
    intro tx d hd
    have hout := ws_extend_outcome cfg libc tx d 1 one_ne_zero
    have hw : wrap_int (d.w_set.size * 2) = 0 := by rw [hd]; decide
    constructor
    · intro tx' d' h
      simp only [extend_ws_n] at h
      cases hc : mtm_allocate_ws_entries cfg libc tx d 1 with
      | returned r =>
        rw [hc] at h
        exact (ih r.1 r.2 (by rw [hout.1 r.1 r.2 hc, hw])).1 tx' d' h
      | assert_failed => rw [hc] at h; cases h
      | exited c => rw [hc] at h; cases h
      | crashed => rw [hc] at h; cases h
    · intro hgrant
      obtain ⟨tx1, d1, hc⟩ := hout.2 (by omega) (by omega) (hgrant _ _)
      obtain ⟨tx2, d2, h2⟩ := (ih tx1 d1 (by rw [hout.1 tx1 d1 hc, hw])).2 hgrant
      refine ⟨tx2, d2, ?_⟩
      simp only [extend_ws_n, hc]
      exact h2

/-- C19: extending strictly increases the capacity exactly in the non-degenerate
range.  For a read or write set with `0 < size ≤ INT_MAX / 2`, `size * 2` is
computed without `int` overflow and `mtm_allocate_*_entries` with `extend`
true, its reallocation granted, returns with capacity `2 * size`, strictly
greater than the old one; among the capacities `0 ≤ size ≤ INT_MAX` these are
the only ones for which a returning call increases the capacity; and for
`size = 0` the capacity is still 0 after any number of extensions, each of
which returns when its reallocation is granted. -/
theorem extend_increases_capacity_in_range (cfg : Config) (libc : libc_t) (tx : mtm_tx_t)
    (data : mode_data_t) (extend : Int) (hext : extend ≠ 0) :
    ((0 < data.r_set.size ∧ data.r_set.size ≤ INT_MAX / 2 →
          (INT_MIN ≤ data.r_set.size * 2 ∧ data.r_set.size * 2 ≤ INT_MAX) ∧
            (libc.realloc data.r_set.entries.addr
                (alloc_bytes (wrap_int (data.r_set.size * 2)) cfg.sizeof_r_entry_t) ≠ 0 →
              ∃ d', mtm_allocate_rs_entries cfg libc tx data extend = Outcome.returned d' ∧
                d'.r_set.size = 2 * data.r_set.size ∧ data.r_set.size < d'.r_set.size)) ∧
        (0 ≤ data.r_set.size ∧ data.r_set.size ≤ INT_MAX →
          ∀ d', mtm_allocate_rs_entries cfg libc tx data extend = Outcome.returned d' →
            (data.r_set.size < d'.r_set.size ↔
              (0 < data.r_set.size ∧ data.r_set.size ≤ INT_MAX / 2))) ∧
        (data.r_set.size = 0 →
          ∀ n, (∀ d', extend_rs_n cfg libc tx n data = Outcome.returned d' →
                d'.r_set.size = 0) ∧
            ((∀ p b, libc.realloc p b ≠ 0) →
              ∃ d', extend_rs_n cfg libc tx n data = Outcome.returned d'))) ∧
      ((0 < data.w_set.size ∧ data.w_set.size ≤ INT_MAX / 2 →
          (INT_MIN ≤ data.w_set.size * 2 ∧ data.w_set.size * 2 ≤ INT_MAX) ∧
            (libc.realloc data.w_set.entries.addr
                (alloc_bytes (wrap_int (data.w_set.size * 2)) cfg.sizeof_w_entry_t) ≠ 0 →
              ∃ tx' d', mtm_allocate_ws_entries cfg libc tx data extend
                  = Outcome.returned (tx', d') ∧
                d'.w_set.size = 2 * data.w_set.size ∧ data.w_set.size < d'.w_set.size)) ∧
        (0 ≤ data.w_set.size ∧ data.w_set.size ≤ INT_MAX →
          ∀ tx' d', mtm_allocate_ws_entries cfg libc tx data extend
              = Outcome.returned (tx', d') →
            (data.w_set.size < d'.w_set.size ↔
              (0 < data.w_set.size ∧ data.w_set.size ≤ INT_MAX / 2))) ∧
        (data.w_set.size = 0 →
          ∀ n, (∀ tx' d', extend_ws_n cfg libc n tx data = Outcome.returned (tx', d') →
                d'.w_set.size = 0) ∧
            ((∀ p b, libc.realloc p b ≠ 0) →
              ∃ tx' d', extend_ws_n cfg libc n tx data = Outcome.returned (tx', d')))) := by
  have hr := rs_extend_outcome cfg libc tx data extend hext
  have hw := ws_extend_outcome cfg libc tx data extend hext
  refine ⟨⟨?_, ?_, ?_⟩, ⟨?_, ?_, ?_⟩⟩
  · rintro ⟨h0, h1⟩
    rw [int_max_half] at h1
    have hwrap : wrap_int (data.r_set.size * 2) = 2 * data.r_set.size := by
      rw [wrap_int_of_range] <;> omega
    refine ⟨by unfold INT_MIN INT_MAX; omega, fun hgrant => ?_⟩
    obtain ⟨d', hd'⟩ := hr.2 hgrant
    have hs := hr.1 d' hd'
    rw [hwrap] at hs
    exact ⟨d', hd', hs, by omega⟩
  · rintro ⟨h0, h1⟩ d' hd'
    rw [hr.1 d' hd']
    exact wrap_int_double_gt_iff _ h0 h1
  · intro hz n
    exact extend_rs_n_of_zero cfg libc tx n data hz
  · rintro ⟨h0, h1⟩
    rw [int_max_half] at h1
    have hwrap : wrap_int (data.w_set.size * 2) = 2 * data.w_set.size := by
      rw [wrap_int_of_range] <;> omega
    refine ⟨by unfold INT_MIN INT_MAX; omega, fun hgrant => ?_⟩
    obtain ⟨tx', d', hd'⟩ := hw.2 (by omega) h1 hgrant
    have hs := hw.1 tx' d' hd'
    rw [hwrap] at hs
    exact ⟨tx', d', hd', hs, by omega⟩
  · rintro ⟨h0, h1⟩ tx' d' hd'
    rw [hw.1 tx' d' hd']
    exact wrap_int_double_gt_iff _ h0 h1
  · intro hz n
    exact extend_ws_n_of_zero cfg libc n tx data hz

/-- C19, exercised: sets of capacity 4 grow to 8; sets of capacity 0 are still
of capacity 0 after five extensions; a set of capacity 2^30 does not grow. -/
theorem extend_increases_capacity_in_range_witness :
    (1 : Int) ≠ 0 ∧
      (∃ d', mtm_allocate_rs_entries cfg_tracking libc_grant tx_demo (data_sized [] 0 4) 1
          = Outcome.returned d' ∧
        d'.r_set.size = 2 * (data_sized [] 0 4).r_set.size ∧
        (data_sized [] 0 4).r_set.size < d'.r_set.size) ∧
      (∃ tx' d', mtm_allocate_ws_entries cfg_tracking libc_grant tx_demo (data_sized [] 0 4) 1
          = Outcome.returned (tx', d') ∧
        d'.w_set.size = 2 * (data_sized [] 0 4).w_set.size ∧
        (data_sized [] 0 4).w_set.size < d'.w_set.size) ∧
      (returned_value (extend_rs_n cfg_tracking libc_grant tx_demo 5 (data_sized [] 0 0))).map
        (fun d => d.r_set.size) = some 0 ∧
      (returned_value (extend_ws_n cfg_tracking libc_grant 5 tx_demo (data_sized [] 0 0))).map
        (fun r => r.2.w_set.size) = some 0 ∧
      (∀ d', extend_rs_n cfg_tracking libc_grant tx_demo 5 (data_sized [] 0 0)
          = Outcome.returned d' → d'.r_set.size = 0) ∧
      (returned_value
        (mtm_allocate_rs_entries cfg_tracking libc_grant tx_demo (data_sized [] 0 1073741824)
          1)).map (fun d => decide ((data_sized [] 0 1073741824).r_set.size < d.r_set.size))
        = some false :=
  have h4 := extend_increases_capacity_in_range cfg_tracking libc_grant tx_demo
    (data_sized [] 0 4) 1 (by decide)
  have h0 := extend_increases_capacity_in_range cfg_tracking libc_grant tx_demo
    (data_sized [] 0 0) 1 (by decide)
  ⟨by decide, (h4.1.1 (by decide)).2 (by decide), (h4.2.1 (by decide)).2 (by decide),
    by decide, by decide, ((h0.1.2.2 (by decide)) 5).1, by decide⟩

end Mnemosyne
